import Mathlib

/-!
A shallow embedding, in Lean 4, of the `wavefile` Rust crate (WAVE/RIFF audio
decoder): the format enumeration (`src/formats.rs`), the error type
(`src/error.rs`), and the header parser, format validation and frame iterator
of `src/lib.rs`.  Machine integers are modelled as `Nat`/`Int` (the buffer
bytes are taken modulo 256 at every access, and the places where 32-bit
wrapping matters use an explicit `% 2^32`).  `f32` sample values are modelled
exactly as dyadic rationals `m * 2^e`: every operation the decoder performs
(integer-to-float casts, subtraction of small integers, division by the
power-of-two constants 128.0 / 32768.0 / 8388608.0 / 2147483648.0, and the
`f64`-to-`f32` narrowing) produces a dyadic result, obtained by IEEE-754
round-to-nearest-ties-to-even at binary32 precision, which `f32Round` below
implements exactly.  Rust panics (`unwrap`, `unreachable!`, `panic!` on a
short read, integer division by zero) are modelled by an explicit `panic`
outcome.
-/

namespace Wavefile

/-- Floor of the base-2 logarithm, by structural recursion on a fuel argument
so that the kernel can evaluate it (`Nat.log2` is defined by well-founded
recursion and does not reduce). -/
def log2floorAux : Nat → Nat → Nat
  | 0, _ => 0
  | fuel+1, n => if n ≤ 1 then 0 else log2floorAux fuel (n / 2) + 1

/-- `log2floor n` is the greatest `L` with `2^L ≤ n`, for `n ≥ 1`. -/
def log2floor (n : Nat) : Nat := log2floorAux n n

/-- Round `n / 2^s` to the nearest integer, ties to even. -/
def rheNat (n s : Nat) : Nat :=
  let q := n / 2^s
  let r := n % 2^s
  if r < 2^(s-1) then q
  else if 2^(s-1) < r then q + 1
  else if q % 2 = 0 then q else q + 1

/-- A dyadic rational `m * 2^e`: the exact value of a finite binary
floating-point number. -/
structure Dy where
  m : ℤ
  e : ℤ
deriving DecidableEq

/-- The rational value of a dyadic. -/
def Dy.toQ (d : Dy) : ℚ := (d.m : ℚ) * (2:ℚ)^d.e

/-- The exponent of the binary32 rounding grid at the value `m * 2^e`: the
unit in the last place is `2^(f32Grid m e)` — `2^(E-23)` for a value of
magnitude in `[2^E, 2^(E+1))`, floored at the subnormal granularity
`2^(-149)`. -/
def f32Grid (m : ℤ) (e : ℤ) : ℤ := max ((log2floor m.natAbs : ℤ) + e - 23) (-149)

/-- IEEE-754 binary32 round-to-nearest-ties-to-even of an exact dyadic value,
with unbounded exponent range above (overflow to infinity is checked by the
caller, `f32Overflow`) and the binary32 subnormal granularity `2^(-149)`
below.  The result is exact when the value is already on the grid. -/
def f32Round (x : Dy) : Dy :=
  if x.m = 0 then ⟨0, 0⟩
  else if f32Grid x.m x.e ≤ x.e then
    ⟨x.m * 2 ^ (x.e - f32Grid x.m x.e).toNat, f32Grid x.m x.e⟩
  else
    ⟨(if x.m < 0 then -(rheNat x.m.natAbs (f32Grid x.m x.e - x.e).toNat : ℤ)
      else (rheNat x.m.natAbs (f32Grid x.m x.e - x.e).toNat : ℤ)), f32Grid x.m x.e⟩

/-- Whether a rounded value `d` has magnitude at least `2^128`, i.e. is out of
the binary32 finite range (an `f64` value that large narrows to infinity). -/
def f32Overflow (d : Dy) : Bool :=
  if 128 ≤ d.e then d.m ≠ 0 else 2^(128 - d.e).toNat ≤ d.m.natAbs

/-- Exact difference of two dyadics (at the smaller exponent). -/
def Dy.sub (a b : Dy) : Dy :=
  let e := min a.e b.e
  ⟨a.m * 2^(a.e - e).toNat - b.m * 2^(b.e - e).toNat, e⟩

/-- `f32` subtraction: the exact difference, rounded to binary32.  In this
codebase it is only applied to small integers, where it is exact. -/
def fsub32 (a b : Dy) : Dy := f32Round (Dy.sub a b)

/-- `f32` division by the constant `2^j`: the exact quotient, rounded to
binary32.  Every float division in the decoder divides by one of the
power-of-two literals 128.0, 32768.0, 8388608.0, 2147483648.0. -/
def fdivPow2 (a : Dy) (j : Nat) : Dy := f32Round ⟨a.m, a.e - (j:ℤ)⟩

/-- The `as f32` cast of an integer: exact for `|v| ≤ 2^24`, rounded above. -/
def i2f32 (v : ℤ) : Dy := f32Round ⟨v, 0⟩

/-- Decides whether `d.toQ = num / 2^p` by integer arithmetic alone (used so
that concrete sample-value facts can be settled by `decide`, since rational
arithmetic does not reduce in the kernel). -/
def Dy.valEq (d : Dy) (num : ℤ) (p : Nat) : Bool :=
  if 0 ≤ d.e + (p:ℤ) then d.m * 2^(d.e + (p:ℤ)).toNat = num
  else d.m = num * 2^(-(d.e + (p:ℤ))).toNat

/-- `src/formats.rs`: the closed format enumeration.  Wire tags:
`PCM = 1`, `IEEEFloat = 3`, `Extensible = 0xfffe`. -/
inductive Format
  | PCM
  | IEEEFloat
  | Extensible
deriving DecidableEq

/-- `Format::decode` from `src/formats.rs`: map a 16-bit wire tag to a
`Format`, `none` for unmapped values. -/
def Format.decode (val : Nat) : Option Format :=
  if val = 1 then some Format.PCM
  else if val = 3 then some Format.IEEEFloat
  else if val = 65534 then some Format.Extensible
  else none

/-- `src/error.rs`: the error enumeration.  The dynamic parts of the
`format!` messages are not modelled; each message is kept as its static
prefix.  `ioError` stands for `WaveError::IoError`. -/
inductive WaveError
  | ioError
  | unsupported (msg : String)
  | parseError (msg : String)
deriving DecidableEq

/-- Outcome of a Rust computation: normal return, an `Err` value, a panic
(`unwrap` on `None`, `unreachable!`, `panic!`, division by zero), or
exhaustion of the fuel that makes the chunk-walking loop structurally
recursive (unreachable in practice, since the loop advances by at least
8 bytes per iteration). -/
inductive RResult (α : Type)
  | ok (a : α)
  | err (e : WaveError)
  | panic
  | outOfFuel
deriving DecidableEq

/-- A byte of the memory-mapped file: accesses reduce the stored value
modulo 256, mirroring the `u8` element type; positions past the end read
as the default only under the bounds guard of the `read_*` functions. -/
def byteAt (buf : List Nat) (i : Nat) : Nat := buf.getD i 0 % 256

/-- The little-endian value of `w` bytes starting at `pos`. -/
def leVal (buf : List Nat) : Nat → Nat → Nat
  | _, 0 => 0
  | pos, w+1 => byteAt buf pos + 256 * leVal buf (pos+1) w

/-- A `byteorder`-style little-endian read of `w` bytes: the value and the
advanced cursor position on success, `none` (an `UnexpectedEOF`) when fewer
than `w` bytes remain. -/
def mkRead (w : Nat) (buf : List Nat) (pos : Nat) : Option (Nat × Nat) :=
  if pos + w ≤ buf.length then some (leVal buf pos w, pos + w) else none

/-- `read_u8`. -/
def read_u8 (buf : List Nat) (pos : Nat) : Option (Nat × Nat) := mkRead 1 buf pos

/-- `read_u16::<LittleEndian>`. -/
def read_u16_le (buf : List Nat) (pos : Nat) : Option (Nat × Nat) := mkRead 2 buf pos

/-- The unsigned payload of `read_i24::<LittleEndian>`. -/
def read_u24_le (buf : List Nat) (pos : Nat) : Option (Nat × Nat) := mkRead 3 buf pos

/-- `read_u32::<LittleEndian>` (also the unsigned payload of `read_i32` and
`read_f32`). -/
def read_u32_le (buf : List Nat) (pos : Nat) : Option (Nat × Nat) := mkRead 4 buf pos

/-- The unsigned payload of `read_f64::<LittleEndian>`. -/
def read_u64_le (buf : List Nat) (pos : Nat) : Option (Nat × Nat) := mkRead 8 buf pos

/-- Two's-complement reinterpretation of a `w8`-bit unsigned value as a
signed integer (the value of `read_i16`/`read_i24`/`read_i32`). -/
def signedVal (w8 : Nat) (v : Nat) : ℤ :=
  if v < 2^(w8-1) then (v : ℤ) else (v : ℤ) - 2^w8

/-- A decoded sample: either an exact finite `f32` value, or a non-finite
one (infinity or NaN, which the decoder passes through unexamined). -/
inductive Sample
  | val (d : Dy)
  | nonfinite
deriving DecidableEq

/-- `Frame = Vec<f32>`: one sample per channel. -/
abbrev Frame := List Sample

/-- `next_pcm8` body: `(sample as f32 - 128.0) / 128.0`. -/
def pcm8Sample (v : Nat) : Sample :=
  Sample.val (fdivPow2 (fsub32 (i2f32 (v : ℤ)) ⟨128, 0⟩) 7)

/-- `next_pcm16` body: `sample as f32 / 32768.0`. -/
def pcm16Sample (v : Nat) : Sample :=
  Sample.val (fdivPow2 (i2f32 (signedVal 16 v)) 15)

/-- `next_pcm24` body: `sample as f32 / 8388608.0`. -/
def pcm24Sample (v : Nat) : Sample :=
  Sample.val (fdivPow2 (i2f32 (signedVal 24 v)) 23)

/-- `next_pcm32` body: `sample as f32 / 2147483648.0`. -/
def pcm32Sample (v : Nat) : Sample :=
  Sample.val (fdivPow2 (i2f32 (signedVal 32 v)) 31)

/-- `next_float32` body: the IEEE-754 binary32 value of the 4 raw bytes,
pushed unchanged (`sample as f32` is the identity). -/
def float32Sample (bits : Nat) : Sample :=
  let e : ℕ := bits / 2^23 % 2^8
  let mant : ℕ := bits % 2^23
  let neg : Bool := bits / 2^31 % 2 = 1
  if e = 255 then Sample.nonfinite
  else
    let d : Dy := if e = 0 then ⟨(mant : ℤ), -149⟩ else ⟨((2^23 + mant : ℕ) : ℤ), (e:ℤ) - 150⟩
    Sample.val (if neg then ⟨-d.m, d.e⟩ else d)

/-- `next_float64` body: the IEEE-754 binary64 value of the 8 raw bytes,
narrowed by `as f32` (round to nearest binary32, overflow to infinity). -/
def float64Sample (bits : Nat) : Sample :=
  let e : ℕ := bits / 2^52 % 2^11
  let mant : ℕ := bits % 2^52
  let neg : Bool := bits / 2^63 % 2 = 1
  if e = 2047 then Sample.nonfinite
  else
    let d0 : Dy := if e = 0 then ⟨(mant : ℤ), -1074⟩ else ⟨((2^52 + mant : ℕ) : ℤ), (e:ℤ) - 1075⟩
    let d1 : Dy := if neg then ⟨-d0.m, d0.e⟩ else d0
    let r := f32Round d1
    if f32Overflow r then Sample.nonfinite else Sample.val r

/-- Decode `n` consecutive samples of byte width `w`, mapping each raw
little-endian value through `g`; `none` models the `panic!` the decoder
raises when a read fails (too few bytes remain).  On success the returned
position is the cursor position after the last sample. -/
def decodeN (w : Nat) (g : Nat → Sample) (buf : List Nat) : Nat → Nat → Option (Frame × Nat)
  | 0, pos => some ([], pos)
  | n+1, pos =>
    match mkRead w buf pos with
    | none => none
    | some (v, p1) =>
      match decodeN w g buf n p1 with
      | none => none
      | some (fr, p2) => some (g v :: fr, p2)

/-- `WaveFileIterator::next_pcm8`. -/
def next_pcm8 (buf : List Nat) (pos channels : Nat) : Option (Frame × Nat) :=
  decodeN 1 pcm8Sample buf channels pos

/-- `WaveFileIterator::next_pcm16`. -/
def next_pcm16 (buf : List Nat) (pos channels : Nat) : Option (Frame × Nat) :=
  decodeN 2 pcm16Sample buf channels pos

/-- `WaveFileIterator::next_pcm24`. -/
def next_pcm24 (buf : List Nat) (pos channels : Nat) : Option (Frame × Nat) :=
  decodeN 3 pcm24Sample buf channels pos

/-- `WaveFileIterator::next_pcm32`. -/
def next_pcm32 (buf : List Nat) (pos channels : Nat) : Option (Frame × Nat) :=
  decodeN 4 pcm32Sample buf channels pos

/-- `WaveFileIterator::next_float32`. -/
def next_float32 (buf : List Nat) (pos channels : Nat) : Option (Frame × Nat) :=
  decodeN 4 float32Sample buf channels pos

/-- `WaveFileIterator::next_float64`. -/
def next_float64 (buf : List Nat) (pos channels : Nat) : Option (Frame × Nat) :=
  decodeN 8 float64Sample buf channels pos

/-- `WaveFileIterator::next_pcm`: dispatch on bytes per sample; the
`_ => unreachable!()` arm is the `none` outcome (a panic). -/
def next_pcm (buf : List Nat) (pos channels bps : Nat) : Option (Frame × Nat) :=
  if bps = 1 then next_pcm8 buf pos channels
  else if bps = 2 then next_pcm16 buf pos channels
  else if bps = 3 then next_pcm24 buf pos channels
  else if bps = 4 then next_pcm32 buf pos channels
  else none

/-- `WaveFileIterator::next_float`: dispatch on bytes per sample; the
`_ => unreachable!()` arm is the `none` outcome (a panic). -/
def next_float (buf : List Nat) (pos channels bps : Nat) : Option (Frame × Nat) :=
  if bps = 4 then next_float32 buf pos channels
  else if bps = 8 then next_float64 buf pos channels
  else none

/-- `WaveInfo` from `src/lib.rs` (all integer fields are the unsigned values
read from the header: `u16` for `channels`, `block_align`,
`bits_per_sample`, `valid_bps`; `u32` for the rest). -/
structure WaveInfo where
  audio_format : Format
  channels : Nat
  sample_rate : Nat
  byte_rate : Nat
  block_align : Nat
  bits_per_sample : Nat
  total_frames : Nat
  valid_bps : Option Nat
  channel_mask : Option Nat
  subformat : Option Format
deriving DecidableEq

/-- `WaveFile::data_format`: `none` models the panicking
`self.info.subformat.unwrap()` when the subformat is unset. -/
def data_format (info : WaveInfo) : Option Format :=
  if info.audio_format = Format.Extensible then info.subformat
  else some info.audio_format

/-- `WaveFile`: the mapped buffer, the data-chunk bounds, and the parsed
header info. -/
structure WaveFile where
  buf : List Nat
  data_offset : Nat
  data_size : Nat
  info : WaveInfo
deriving DecidableEq

/-- Outcome of one `WaveFileIterator::next` call: a frame together with the
new relative position, clean exhaustion (`None` at `pos == end`), or a
panic (`unreachable!` for an unresolved/Extensible data format, or a failed
read inside a decoder). -/
inductive IterStep
  | yield (fr : Frame) (newPos : Nat)
  | done
  | panic
deriving DecidableEq

/-- The frame decode dispatched by `next` on the resolved data format
(`data_format`); `none` for the panicking `_ => unreachable!()` arm and for
the `unwrap` of an unset subformat. -/
def frameDecode (df : Option Format) (buf : List Nat) (pos channels bps : Nat) :
    Option (Frame × Nat) :=
  match df with
  | some Format.PCM => next_pcm buf pos channels bps
  | some Format.IEEEFloat => next_float buf pos channels bps
  | _ => none

/-- `WaveFileIterator::next` at relative position `pos`, with
`base = data_offset` and `end = data_offset + data_size` as built by
`WaveFile::iter`; `bps` is the iterator's `bytes_per_sample` field.
Seeking a `Cursor` to `Start(base + pos)` always succeeds, so the
`is_err` early return never fires and is not modelled.  Exhaustion is the
equality test `cursor.position() == self.end`. -/
def iterNext (w : WaveFile) (bps pos : Nat) : IterStep :=
  let base := w.data_offset
  let endPos := w.data_offset + w.data_size
  if base + pos = endPos then IterStep.done
  else
    match frameDecode (data_format w.info) w.buf (base + pos) w.info.channels bps with
    | some (fr, newPos) => IterStep.yield fr (newPos - base)
    | none => IterStep.panic

/-- The sequence of frames produced by repeatedly calling `next`, and how
the iteration ended: clean exhaustion, a panic, or out of fuel. -/
inductive IterResult
  | finished (frames : List Frame)
  | panicked (frames : List Frame)
  | outOfFuel (frames : List Frame)
deriving DecidableEq

/-- Run the iterator from relative position `pos` for at most `fuel` steps,
collecting yielded frames. -/
def iterateAux (w : WaveFile) (bps : Nat) : Nat → Nat → IterResult
  | 0, _ => IterResult.outOfFuel []
  | fuel+1, pos =>
    match iterNext w bps pos with
    | IterStep.done => IterResult.finished []
    | IterStep.panic => IterResult.panicked []
    | IterStep.yield fr p' =>
      match iterateAux w bps fuel p' with
      | IterResult.finished l => IterResult.finished (fr :: l)
      | IterResult.panicked l => IterResult.panicked (fr :: l)
      | IterResult.outOfFuel l => IterResult.outOfFuel (fr :: l)

/-- A fresh iterator from `WaveFile::iter` (`bytes_per_sample =
bits_per_sample / 8`, starting relative position 0), run for `fuel` steps. -/
def iterate (w : WaveFile) (fuel : Nat) : IterResult :=
  iterateAux w (w.info.bits_per_sample / 8) fuel 0

/-- Chunk-id constant `RIFF` (little-endian `u32` of the ASCII bytes). -/
def RIFF : Nat := 0x46464952
/-- Chunk-id constant `WAVE`. -/
def WAVE : Nat := 0x45564157
/-- Chunk-id constant for the `fmt ` chunk. -/
def FMT' : Nat := 0x20746d66
/-- Chunk-id constant `data`. -/
def DATA : Nat := 0x61746164
/-- Chunk-id constant `LIST`. -/
def LIST : Nat := 0x5453494c
/-- Chunk-id constant `fact`. -/
def FACT : Nat := 0x74636166

/-- Propagate a header read through `?`: a failed read becomes the
`ParseError` that `From<byteorder::Error>` produces for `UnexpectedEOF`. -/
def withRead {α : Type} (r : Option (Nat × Nat)) (k : Nat → Nat → RResult α) : RResult α :=
  match r with
  | none => RResult.err (WaveError.parseError ("Unexpected EOF"))
  | some (v, p) => k v p

/-- `WaveFile::read_format_chunk`: parse the `fmt ` payload at `pos` into an
updated `info`, returning it with the cursor position after the chunk. -/
def read_format_chunk (info : WaveInfo) (buf : List Nat) (pos : Nat) :
    RResult (WaveInfo × Nat) :=
  withRead (read_u16_le buf pos) fun fmt p1 =>
  match Format.decode fmt with
  | none => RResult.err (WaveError.parseError ("Unexpected format"))
  | some af =>
  withRead (read_u16_le buf p1) fun ch p2 =>
  withRead (read_u32_le buf p2) fun sr p3 =>
  withRead (read_u32_le buf p3) fun br p4 =>
  withRead (read_u16_le buf p4) fun ba p5 =>
  withRead (read_u16_le buf p5) fun bps p6 =>
  let info1 : WaveInfo :=
    { info with audio_format := af, channels := ch, sample_rate := sr,
                byte_rate := br, block_align := ba, bits_per_sample := bps }
  if af = Format.Extensible then
    withRead (read_u16_le buf p6) fun extSize p7 =>
    if extSize = 22 then
      withRead (read_u16_le buf p7) fun vbps p8 =>
      withRead (read_u32_le buf p8) fun mask p9 =>
      withRead (read_u16_le buf p9) fun sf p10 =>
      match Format.decode sf with
      | none => RResult.err (WaveError.parseError ("Unexpected subformat"))
      | some sfm =>
        RResult.ok ({ info1 with valid_bps := some vbps, channel_mask := some mask,
                                 subformat := some sfm }, p10 + 14)
    else RResult.err (WaveError.parseError ("Unexpected extension size"))
  else RResult.ok (info1, p6)

/-- The chunk-walking loop of `WaveFile::read_chunks`: read chunk ids and
sizes from `pos` until the `data` chunk is reached, parsing `fmt ` chunks,
skipping `LIST`/`fact`, and failing on anything else.  On success it returns
the updated info, the `have_fmt` flag, the cursor position just past the
`data` chunk header (the future `data_offset`), and the declared `data`
chunk size.  The loop advances at least 8 bytes per iteration, so any fuel
larger than `buf.length / 8` is enough. -/
def chunkLoop (buf : List Nat) : Nat → Nat → WaveInfo → Bool →
    RResult (WaveInfo × Bool × Nat × Nat)
  | 0, _, _, _ => RResult.outOfFuel
  | fuel+1, pos, info, have_fmt =>
    withRead (read_u32_le buf pos) fun chunk_id p1 =>
    withRead (read_u32_le buf p1) fun chunk_size p2 =>
    if chunk_id = FMT' then
      match read_format_chunk info buf p2 with
      | RResult.ok (info2, p3) => chunkLoop buf fuel p3 info2 true
      | RResult.err e => RResult.err e
      | RResult.panic => RResult.panic
      | RResult.outOfFuel => RResult.outOfFuel
    else if chunk_id = DATA then RResult.ok (info, have_fmt, p2, chunk_size)
    else if chunk_id = LIST ∨ chunk_id = FACT then
      chunkLoop buf fuel (p2 + chunk_size) info have_fmt
    else RResult.err (WaveError.parseError ("Unexpected Chunk ID"))

/-- `WaveFile::validate_format`: the panic arm is the `unwrap` inside
`data_format` on an unset subformat. -/
def validate_format (info : WaveInfo) : RResult Unit :=
  if info.channels = 0 then
    RResult.err (WaveError.parseError ("No audio channels present in this file"))
  else if info.bits_per_sample < 8 then
    RResult.err (WaveError.unsupported ("Unsupported bits per sample"))
  else
    match data_format info with
    | none => RResult.panic
    | some f =>
      if f = Format.IEEEFloat ∧ ¬(info.bits_per_sample = 32 ∨ info.bits_per_sample = 64) then
        RResult.err (WaveError.unsupported ("Unsupported bits per sample for floating point data"))
      else RResult.ok ()

/-- `WaveFile::read_chunks` on the buffer, starting from the info that
`open` initialises: check the RIFF/WAVE magic, walk the chunks, require a
format chunk, validate, and derive `total_frames` (a `u32` division that
panics on a zero divisor).  Returns the final info, `data_offset` and
`data_size`. -/
def read_chunks (info0 : WaveInfo) (buf : List Nat) : RResult (WaveInfo × Nat × Nat) :=
  withRead (read_u32_le buf 0) fun chunk_id p1 =>
  withRead (read_u32_le buf p1) fun _ p2 =>
  withRead (read_u32_le buf p2) fun riff_type p3 =>
  if chunk_id ≠ RIFF ∨ riff_type ≠ WAVE then
    RResult.err (WaveError.parseError ("Not a Wavefile"))
  else
    match chunkLoop buf (buf.length + 1) p3 info0 false with
    | RResult.ok (info2, have_fmt, dpos, dsize) =>
      if have_fmt = false then RResult.err (WaveError.parseError ("No format chunk found"))
      else
        match validate_format info2 with
        | RResult.ok _ =>
          let divisor := info2.channels * info2.bits_per_sample / 8
          if divisor = 0 then RResult.panic
          else RResult.ok ({ info2 with total_frames := dsize % 2^32 / divisor }, dpos, dsize)
        | RResult.err e => RResult.err e
        | RResult.panic => RResult.panic
        | RResult.outOfFuel => RResult.outOfFuel
    | RResult.err e => RResult.err e
    | RResult.panic => RResult.panic
    | RResult.outOfFuel => RResult.outOfFuel

/-- The `WaveInfo` literal that `WaveFile::open` starts from. -/
def info0 : WaveInfo :=
  { audio_format := Format.PCM, channels := 0, sample_rate := 0, byte_rate := 0,
    block_align := 0, bits_per_sample := 0, total_frames := 0,
    valid_bps := none, channel_mask := none, subformat := none }

/-- `WaveFile::open` on an already-mapped buffer (the mmap step and its
`IoError` are outside the model): run `read_chunks` and assemble the
handle. -/
def openWave (buf : List Nat) : RResult WaveFile :=
  match read_chunks info0 buf with
  | RResult.ok (info, doff, dsize) =>
    RResult.ok { buf := buf, data_offset := doff, data_size := dsize, info := info }
  | RResult.err e => RResult.err e
  | RResult.panic => RResult.panic
  | RResult.outOfFuel => RResult.outOfFuel

/-- `WaveFile::duration`: `self.len() as u32 * 1000 / self.sample_rate()`,
a `u32` computation (wrapping multiplication) whose division panics when
`sample_rate` is zero. -/
def duration (w : WaveFile) : RResult Nat :=
  if w.info.sample_rate = 0 then RResult.panic
  else RResult.ok (w.info.total_frames % 2^32 * 1000 % 2^32 / w.info.sample_rate)

/-- Little-endian byte pair of a 16-bit value (for building test headers). -/
def u16b (v : Nat) : List Nat := [v % 256, v / 256 % 256]

/-- Little-endian byte quadruple of a 32-bit value. -/
def u32b (v : Nat) : List Nat := [v % 256, v / 256 % 256, v / 65536 % 256, v / 16777216 % 256]

/-- The 12-byte RIFF/WAVE prologue (declared RIFF size 0, unused by the
parser). -/
def riffHdr : List Nat := [0x52, 0x49, 0x46, 0x46] ++ u32b 0 ++ [0x57, 0x41, 0x56, 0x45]

/-- ASCII bytes of the chunk id `fmt `. -/
def fmtId : List Nat := [0x66, 0x6d, 0x74, 0x20]

/-- ASCII bytes of the chunk id `data`. -/
def dataId : List Nat := [0x64, 0x61, 0x74, 0x61]

/-- A plain (16-byte) format-chunk payload. -/
def fmtBody (af ch sr br ba bps : Nat) : List Nat :=
  u16b af ++ u16b ch ++ u32b sr ++ u32b br ++ u16b ba ++ u16b bps

/-- A well-formed mono 16-bit PCM file: 48000 Hz, data chunk of 4 bytes
holding the samples `0x4000` and `0xC000`. -/
def pcm16Bytes : List Nat :=
  riffHdr ++ fmtId ++ u32b 16 ++ fmtBody 1 1 48000 96000 2 16 ++
  dataId ++ u32b 4 ++ [0x00, 0x40, 0x00, 0xC0]

/-- An Extensible-format file whose subformat tag is itself `0xFFFE`
(Extensible): 16-bit, mono, extension size 22, data chunk of 2 bytes. -/
def extExtBytes : List Nat :=
  riffHdr ++ fmtId ++ u32b 40 ++ fmtBody 0xFFFE 1 44100 88200 2 16 ++
  u16b 22 ++ u16b 16 ++ u32b 3 ++ u16b 0xFFFE ++ List.replicate 14 0 ++
  dataId ++ u32b 2 ++ [0, 0]

/-- A mono 16-bit PCM file whose data chunk declares 3 bytes (not a frame
multiple) and whose buffer ends exactly at the declared data end. -/
def odd3Bytes : List Nat :=
  riffHdr ++ fmtId ++ u32b 16 ++ fmtBody 1 1 48000 96000 2 16 ++
  dataId ++ u32b 3 ++ [1, 2, 3]

/-- Like `odd3Bytes` but with two further bytes in the buffer after the
declared end of the data chunk. -/
def odd3PlusBytes : List Nat :=
  riffHdr ++ fmtId ++ u32b 16 ++ fmtBody 1 1 48000 96000 2 16 ++
  dataId ++ u32b 3 ++ [1, 2, 3] ++ [4, 5]

/-- A plain IEEE-float 32-bit mono file whose single sample is 2.0f32
(bytes `00 00 00 40`). -/
def float2Bytes : List Nat :=
  riffHdr ++ fmtId ++ u32b 16 ++ fmtBody 3 1 48000 192000 4 32 ++
  dataId ++ u32b 4 ++ [0, 0, 0, 0x40]

/-- A mono 16-bit PCM file that is well-formed except for declaring
`sample_rate = 0`. -/
def rate0Bytes : List Nat :=
  riffHdr ++ fmtId ++ u32b 16 ++ fmtBody 1 1 0 0 2 16 ++
  dataId ++ u32b 2 ++ [0, 0]

/-- A format-chunk payload declaring Extensible with extension size 0. -/
def extSize0Fmt : List Nat := fmtBody 0xFFFE 1 44100 88200 2 16 ++ u16b 0

/-- A format-chunk payload declaring Extensible with extension size 5. -/
def extSize5Fmt : List Nat := fmtBody 0xFFFE 1 44100 88200 2 16 ++ u16b 5

/-- Extensible / subformat IEEE-float / 32-bit mono file: data chunk
declares 2 bytes `[0,0]`, and two extra bytes `00 40` sit in the buffer
beyond the declared data end. -/
def extFloatShortBytes : List Nat :=
  riffHdr ++ fmtId ++ u32b 40 ++ fmtBody 0xFFFE 1 48000 192000 4 32 ++
  u16b 22 ++ u16b 32 ++ u32b 3 ++ u16b 3 ++ List.replicate 14 0 ++
  dataId ++ u32b 2 ++ [0, 0] ++ [0, 0x40]

/-- Plain IEEE-float 32-bit mono file: data chunk declares the same 2 bytes
`[0,0]`, but the bytes beyond the declared end are `00 3F`. -/
def plainFloatShortBytes : List Nat :=
  riffHdr ++ fmtId ++ u32b 16 ++ fmtBody 3 1 48000 192000 4 32 ++
  dataId ++ u32b 2 ++ [0, 0] ++ [0, 0x3F]

/-- Extensible / subformat IEEE-float / 32-bit mono file with a well-formed
4-byte data chunk holding 2.0f32. -/
def extFloatOkBytes : List Nat :=
  riffHdr ++ fmtId ++ u32b 40 ++ fmtBody 0xFFFE 1 48000 192000 4 32 ++
  u16b 22 ++ u16b 32 ++ u32b 3 ++ u16b 3 ++ List.replicate 14 0 ++
  dataId ++ u32b 4 ++ [0, 0, 0, 0x40]

/-- Plain IEEE-float 32-bit mono file with the same 4-byte data chunk. -/
def plainFloatOkBytes : List Nat :=
  riffHdr ++ fmtId ++ u32b 16 ++ fmtBody 3 1 48000 192000 4 32 ++
  dataId ++ u32b 4 ++ [0, 0, 0, 0x40]

/-- Observer: the resolved data format of a successfully opened buffer. -/
def openedDataFormat (buf : List Nat) : Option (Option Format) :=
  match openWave buf with
  | RResult.ok w => some (data_format w.info)
  | _ => none

/-- Observer: the first `next` step of a fresh iterator on a successfully
opened buffer. -/
def openedFirstStep (buf : List Nat) : Option IterStep :=
  match openWave buf with
  | RResult.ok w => some (iterNext w (w.info.bits_per_sample / 8) 0)
  | _ => none

/-- Observer: run a fresh iterator for `fuel` steps on a successfully opened
buffer. -/
def iterAfterOpen (buf : List Nat) (fuel : Nat) : Option IterResult :=
  match openWave buf with
  | RResult.ok w => some (iterate w fuel)
  | _ => none

/-- Observer: `total_frames` of a successfully opened buffer. -/
def openedTotalFrames (buf : List Nat) : Option Nat :=
  match openWave buf with
  | RResult.ok w => some w.info.total_frames
  | _ => none

/-- Observer: `sample_rate` of a successfully opened buffer. -/
def openedSampleRate (buf : List Nat) : Option Nat :=
  match openWave buf with
  | RResult.ok w => some w.info.sample_rate
  | _ => none

/-- Observer: the outcome of `duration()` on a successfully opened buffer. -/
def openedDuration (buf : List Nat) : Option (RResult Nat) :=
  match openWave buf with
  | RResult.ok w => some (duration w)
  | _ => none

/-- Observer: the declared data chunk contents (the `data_size` bytes from
`data_offset`) of a successfully opened buffer. -/
def openedDataChunk (buf : List Nat) : Option (List Nat) :=
  match openWave buf with
  | RResult.ok w => some ((w.buf.drop w.data_offset).take w.data_size)
  | _ => none

/-- Observer: the frame of the first `next` call when it yields one. -/
def openedFirstFrame (buf : List Nat) : Option Frame :=
  match openedFirstStep buf with
  | some (IterStep.yield fr _) => some fr
  | _ => none

/-- Observer: the declared (outer) `audio_format` of a successfully opened
buffer. -/
def openedAudioFormat (buf : List Nat) : Option Format :=
  match openWave buf with
  | RResult.ok w => some w.info.audio_format
  | _ => none

/-- Observer: `bits_per_sample` of a successfully opened buffer. -/
def openedBitsPerSample (buf : List Nat) : Option Nat :=
  match openWave buf with
  | RResult.ok w => some w.info.bits_per_sample
  | _ => none

/-- Two decoder outcomes at buffer offsets `o1`/`o2` agree up to the offset
shift: both panic, or both yield the same frame and the same relative
advance. -/
def RelShift (o1 o2 : Nat) (x y : Option (Frame × Nat)) : Prop :=
  (x = none ∧ y = none) ∨ ∃ fr q, x = some (fr, o1 + q) ∧ y = some (fr, o2 + q)

/-- The handle obtained by opening `pcm16Bytes`. -/
def pcm16Wave : WaveFile :=
  { buf := pcm16Bytes, data_offset := 44, data_size := 4,
    info := { audio_format := Format.PCM, channels := 1, sample_rate := 48000,
              byte_rate := 96000, block_align := 2, bits_per_sample := 16,
              total_frames := 2, valid_bps := none, channel_mask := none,
              subformat := none } }

/-- The handle obtained by opening `extFloatOkBytes`. -/
def extFloatOkWave : WaveFile :=
  { buf := extFloatOkBytes, data_offset := 68, data_size := 4,
    info := { audio_format := Format.Extensible, channels := 1, sample_rate := 48000,
              byte_rate := 192000, block_align := 4, bits_per_sample := 32,
              total_frames := 1, valid_bps := some 32, channel_mask := some 3,
              subformat := some Format.IEEEFloat } }

/-- The handle obtained by opening `plainFloatOkBytes`. -/
def plainFloatOkWave : WaveFile :=
  { buf := plainFloatOkBytes, data_offset := 44, data_size := 4,
    info := { audio_format := Format.IEEEFloat, channels := 1, sample_rate := 48000,
              byte_rate := 192000, block_align := 4, bits_per_sample := 32,
              total_frames := 1, valid_bps := none, channel_mask := none,
              subformat := none } }

/-! ### Numeric infrastructure lemmas -/

theorem log2floorAux_spec : ∀ fuel n : Nat, n ≤ fuel → 1 ≤ n →
    2 ^ log2floorAux fuel n ≤ n ∧ n < 2 ^ (log2floorAux fuel n + 1) := by
  intro fuel
  induction fuel with
  | zero => intro n hf h1; omega
  | succ fuel ih =>
    intro n hf h1
    by_cases hn : n ≤ 1
    · have : n = 1 := by omega
      simp [log2floorAux, hn, this]
    · have h2 : 2 ≤ n := by omega
      have hrec := ih (n / 2) (by omega) (by omega)
      have hup : 2 ^ (log2floorAux fuel (n / 2)) ≤ n / 2 := hrec.1
      have hdn : n / 2 < 2 ^ (log2floorAux fuel (n / 2) + 1) := hrec.2
      constructor
      · simp only [log2floorAux, if_neg (by omega : ¬ n ≤ 1)]
        calc 2 ^ (log2floorAux fuel (n / 2) + 1) = 2 * 2 ^ (log2floorAux fuel (n / 2)) := by ring
        _ ≤ 2 * (n / 2) := by omega
        _ ≤ n := by omega
      · simp only [log2floorAux, if_neg (by omega : ¬ n ≤ 1)]
        calc n < 2 * (n / 2) + 2 := by omega
        _ ≤ 2 * 2 ^ (log2floorAux fuel (n / 2) + 1) := by omega
        _ = 2 ^ (log2floorAux fuel (n / 2) + 1 + 1) := by ring

theorem log2floor_le (n : Nat) (h1 : 1 ≤ n) : 2 ^ log2floor n ≤ n :=
  (log2floorAux_spec n n le_rfl h1).1

theorem lt_log2floor_succ (n : Nat) (h1 : 1 ≤ n) : n < 2 ^ (log2floor n + 1) :=
  (log2floorAux_spec n n le_rfl h1).2

theorem rheNat_le (n s c : Nat) (h : n ≤ 2 ^ s * c) : rheNat n s ≤ c := by
  have hpow : (0:Nat) < 2 ^ s := pow_pos (by norm_num) _
  have hq : n / 2 ^ s ≤ c := by
    have h1 := Nat.div_le_div_right (c := 2 ^ s) h
    rwa [Nat.mul_div_cancel_left c hpow] at h1
  have hkey : 0 < n % 2 ^ s → n / 2 ^ s < c := by
    intro hr
    rcases Nat.lt_or_ge (n / 2 ^ s) c with h' | h'
    · exact h'
    · exfalso
      have hqc : n / 2 ^ s = c := le_antisymm hq h'
      have hdm := Nat.div_add_mod n (2 ^ s)
      rw [hqc] at hdm
      omega
  have hhalf : (0:Nat) < 2 ^ (s - 1) := pow_pos (by norm_num) _
  simp only [rheNat]
  split
  · exact hq
  rename_i hge
  split
  · rename_i hgt
    have := hkey (by omega)
    omega
  split
  · exact hq
  · have := hkey (by omega)
    omega

/-- Positivity of rational powers of two. -/
theorem two_zpow_pos (e : ℤ) : (0:ℚ) < 2 ^ e := zpow_pos (by norm_num) e

theorem two_zpow_ne (e : ℤ) : (2:ℚ) ^ e ≠ 0 := ne_of_gt (two_zpow_pos e)

/-- A nonnegative integer power of two, written as a `zpow`, is the cast of
the corresponding `Nat` power. -/
theorem qpow_toNat (t : ℤ) (ht : 0 ≤ t) : (2:ℚ) ^ t = ((2 ^ t.toNat : ℕ) : ℚ) := by
  push_cast
  rw [← zpow_natCast (2:ℚ) t.toNat, Int.toNat_of_nonneg ht]

theorem qpow_toNat_zpow (x : ℤ) (hx : 0 ≤ x) : (2:ℚ) ^ x.toNat = (2:ℚ) ^ x := by
  rw [← zpow_natCast (2:ℚ) x.toNat, Int.toNat_of_nonneg hx]

theorem abs_toQ (d : Dy) : |d.toQ| = (d.m.natAbs : ℚ) * 2 ^ d.e := by
  unfold Dy.toQ
  rw [abs_mul, abs_of_pos (two_zpow_pos d.e), Int.cast_natAbs]
  push_cast
  ring

theorem toQ_shift (m : ℤ) (e : ℤ) (t : ℕ) :
    Dy.toQ ⟨m * 2 ^ t, e⟩ = Dy.toQ ⟨m, e + t⟩ := by
  unfold Dy.toQ
  push_cast
  rw [zpow_add₀ (by norm_num : (2:ℚ) ≠ 0), zpow_natCast]
  ring

theorem toQ_nonneg (d : Dy) (h : 0 ≤ d.m) : 0 ≤ d.toQ :=
  mul_nonneg (by exact_mod_cast h) (le_of_lt (two_zpow_pos d.e))

theorem toQ_sub (a b : Dy) : (Dy.sub a b).toQ = a.toQ - b.toQ := by
  unfold Dy.sub Dy.toQ
  push_cast
  rw [sub_mul, mul_assoc, mul_assoc,
      qpow_toNat_zpow (a.e - min a.e b.e) (by omega),
      qpow_toNat_zpow (b.e - min a.e b.e) (by omega),
      ← zpow_add₀ (by norm_num : (2:ℚ) ≠ 0),
      ← zpow_add₀ (by norm_num : (2:ℚ) ≠ 0)]
  have e1 : a.e - min a.e b.e + min a.e b.e = a.e := by omega
  have e2 : b.e - min a.e b.e + min a.e b.e = b.e := by omega
  rw [e1, e2]

theorem f32Round_m_nonneg (x : Dy) (h : 0 ≤ x.m) : 0 ≤ (f32Round x).m := by
  unfold f32Round
  split
  · simp
  split
  · exact mul_nonneg h (by positivity)
  · rename_i hm _
    have hneg : ¬ x.m < 0 := by omega
    simp only [if_neg hneg]
    exact Int.natCast_nonneg _

/-- Rounding does not increase the magnitude past a power of two that lies
on the rounding grid: if `|x| ≤ 2^c` (with `c ≥ -149`) then the rounded
value also has magnitude at most `2^c`. -/
theorem f32Round_abs_le (x : Dy) (c : ℤ) (hc : -149 ≤ c) (h : |x.toQ| ≤ 2 ^ c) :
    |(f32Round x).toQ| ≤ 2 ^ c := by
  unfold f32Round
  split
  · rename_i hm
    have : |Dy.toQ ⟨0, 0⟩| = 0 := by simp [Dy.toQ]
    rw [this]
    positivity
  rename_i hm
  have hn1 : 1 ≤ x.m.natAbs := by
    have := Int.natAbs_pos.mpr hm
    omega
  have habs : |x.toQ| = (x.m.natAbs : ℚ) * 2 ^ x.e := abs_toQ x
  have hElower : (2:ℚ) ^ ((log2floor x.m.natAbs : ℤ) + x.e) ≤ |x.toQ| := by
    rw [habs, zpow_add₀ (by norm_num : (2:ℚ) ≠ 0), zpow_natCast]
    apply mul_le_mul_of_nonneg_right _ (le_of_lt (two_zpow_pos x.e))
    exact_mod_cast log2floor_le _ hn1
  have hEc : (log2floor x.m.natAbs : ℤ) + x.e ≤ c := by
    have := le_trans hElower h
    exact (zpow_le_zpow_iff_right₀ (by norm_num : (1:ℚ) < 2)).mp this
  have hgc : f32Grid x.m x.e ≤ c := by
    unfold f32Grid
    apply max_le <;> omega
  split
  · -- exact branch: the value is unchanged
    rename_i hge
    have hsh : (Dy.toQ ⟨x.m * 2 ^ (x.e - f32Grid x.m x.e).toNat, f32Grid x.m x.e⟩) = x.toQ := by
      rw [toQ_shift]
      have he : f32Grid x.m x.e + ((x.e - f32Grid x.m x.e).toNat : ℤ) = x.e := by omega
      rw [he]
    rw [hsh]
    exact h
  · -- rounding branch
    rename_i hlt
    have hxe : x.e < f32Grid x.m x.e := by omega
    have hnb : (x.m.natAbs : ℚ) ≤ 2 ^ (c - x.e) := by
      have h1 : (x.m.natAbs : ℚ) * 2 ^ x.e ≤ 2 ^ c := habs ▸ h
      have h2 := mul_le_mul_of_nonneg_right h1 (le_of_lt (two_zpow_pos (-x.e)))
      calc (x.m.natAbs : ℚ) = x.m.natAbs * 2 ^ x.e * 2 ^ (-x.e) := by
            rw [mul_assoc, ← zpow_add₀ (by norm_num : (2:ℚ) ≠ 0)]
            simp
      _ ≤ 2 ^ c * 2 ^ (-x.e) := h2
      _ = 2 ^ (c - x.e) := by
            rw [← zpow_add₀ (by norm_num : (2:ℚ) ≠ 0), sub_eq_add_neg]
    have hnbn : x.m.natAbs ≤ 2 ^ (c - x.e).toNat := by
      rw [qpow_toNat (c - x.e) (by omega)] at hnb
      exact_mod_cast hnb
    have hsplit : (c - x.e).toNat = (f32Grid x.m x.e - x.e).toNat + (c - f32Grid x.m x.e).toNat := by
      omega
    have hkle : rheNat x.m.natAbs (f32Grid x.m x.e - x.e).toNat ≤ 2 ^ (c - f32Grid x.m x.e).toNat := by
      apply rheNat_le
      rw [← pow_add, ← hsplit]
      exact hnbn
    have habs2 : |Dy.toQ ⟨(if x.m < 0 then -(rheNat x.m.natAbs (f32Grid x.m x.e - x.e).toNat : ℤ)
        else (rheNat x.m.natAbs (f32Grid x.m x.e - x.e).toNat : ℤ)), f32Grid x.m x.e⟩| =
        (rheNat x.m.natAbs (f32Grid x.m x.e - x.e).toNat : ℚ) * 2 ^ f32Grid x.m x.e := by
      rw [abs_toQ]
      have hna : (if x.m < 0 then -(rheNat x.m.natAbs (f32Grid x.m x.e - x.e).toNat : ℤ)
          else (rheNat x.m.natAbs (f32Grid x.m x.e - x.e).toNat : ℤ)).natAbs =
          rheNat x.m.natAbs (f32Grid x.m x.e - x.e).toNat := by
        split <;> simp
      rw [hna]
    rw [habs2]
    calc (rheNat x.m.natAbs (f32Grid x.m x.e - x.e).toNat : ℚ) * 2 ^ f32Grid x.m x.e
        ≤ ((2 ^ (c - f32Grid x.m x.e).toNat : ℕ) : ℚ) * 2 ^ f32Grid x.m x.e := by
          apply mul_le_mul_of_nonneg_right _ (le_of_lt (two_zpow_pos _))
          exact_mod_cast hkle
    _ = 2 ^ (c - f32Grid x.m x.e) * 2 ^ f32Grid x.m x.e := by
          rw [← qpow_toNat (c - f32Grid x.m x.e) (by omega)]
    _ = 2 ^ c := by
          rw [← zpow_add₀ (by norm_num : (2:ℚ) ≠ 0)]
          congr 1
          omega

/-! ### Sample-value lemmas -/

theorem toQ_scale (m : ℤ) (e : ℤ) (j : ℕ) :
    Dy.toQ ⟨m, e - (j:ℤ)⟩ = Dy.toQ ⟨m, e⟩ / 2 ^ ((j:ℤ)) := by
  unfold Dy.toQ
  rw [zpow_sub₀ (by norm_num : (2:ℚ) ≠ 0)]
  ring

theorem fdivPow2_abs_le (a : Dy) (j : ℕ) (c : ℤ) (hc : -149 ≤ c)
    (h : |a.toQ| ≤ 2 ^ (c + (j:ℤ))) : |(fdivPow2 a j).toQ| ≤ 2 ^ c := by
  unfold fdivPow2
  apply f32Round_abs_le _ c hc
  have hsc : Dy.toQ ⟨a.m, a.e - (j:ℤ)⟩ = a.toQ / 2 ^ ((j:ℤ)) := toQ_scale a.m a.e j
  rw [hsc, abs_div, abs_of_pos (two_zpow_pos _), div_le_iff₀ (two_zpow_pos _),
      ← zpow_add₀ (by norm_num : (2:ℚ) ≠ 0)]
  exact h

theorem i2f32_abs_le (v : ℤ) (c : ℤ) (hc : -149 ≤ c) (h : |(v:ℚ)| ≤ 2 ^ c) :
    |(i2f32 v).toQ| ≤ 2 ^ c := by
  unfold i2f32
  apply f32Round_abs_le _ c hc
  have : Dy.toQ ⟨v, 0⟩ = (v:ℚ) := by simp [Dy.toQ]
  rwa [this]

theorem i2f32_toQ_nonneg (v : ℤ) (h : 0 ≤ v) : 0 ≤ (i2f32 v).toQ :=
  toQ_nonneg _ (f32Round_m_nonneg _ (by simpa))

theorem signedVal_bounds (w8 : ℕ) (v : ℕ) (h1 : 1 ≤ w8) (hv : v < 2 ^ w8) :
    -(2:ℤ) ^ (w8 - 1) ≤ signedVal w8 v ∧ signedVal w8 v ≤ 2 ^ (w8 - 1) := by
  have hA : (0:ℤ) < 2 ^ (w8 - 1) := by positivity
  have hs : (2:ℤ) ^ w8 = 2 * 2 ^ (w8 - 1) := by
    conv_lhs => rw [show w8 = (w8 - 1) + 1 by omega]
    ring
  have hvz : (v:ℤ) < 2 ^ w8 := by exact_mod_cast hv
  unfold signedVal
  split
  · rename_i hlt
    have hz : (v:ℤ) < 2 ^ (w8 - 1) := by exact_mod_cast hlt
    constructor
    · have : (0:ℤ) ≤ (v:ℤ) := by positivity
      linarith
    · linarith
  · rename_i hge
    have hz : 2 ^ (w8 - 1) ≤ (v:ℤ) := by exact_mod_cast Nat.le_of_not_lt hge
    constructor
    · linarith
    · linarith

/-- All four PCM sample decoders yield finite values in `[-1, 1]` on values
of their input width. -/
theorem pcm8Sample_range (v : ℕ) (hv : v < 256) :
    ∃ d, pcm8Sample v = Sample.val d ∧ -1 ≤ d.toQ ∧ d.toQ ≤ 1 := by
  refine ⟨_, rfl, ?_⟩
  have h0 : 0 ≤ (i2f32 (v:ℤ)).toQ := i2f32_toQ_nonneg _ (by positivity)
  have h1 : |(i2f32 (v:ℤ)).toQ| ≤ 2 ^ (8:ℤ) := by
    apply i2f32_abs_le _ _ (by norm_num)
    rw [abs_of_nonneg (by positivity)]
    have : (v:ℚ) ≤ 255 := by exact_mod_cast Nat.le_of_lt_succ hv
    norm_num
    linarith
  have hsub : |(fsub32 (i2f32 (v:ℤ)) ⟨128, 0⟩).toQ| ≤ 2 ^ (7:ℤ) := by
    unfold fsub32
    apply f32Round_abs_le _ _ (by norm_num)
    rw [toQ_sub]
    have h128 : Dy.toQ ⟨128, 0⟩ = 128 := by simp [Dy.toQ]
    rw [h128, abs_le] at *
    obtain ⟨hl, hu⟩ := h1
    constructor <;> [skip; skip] <;> norm_num at hu ⊢ <;> linarith
  have hdiv : |(fdivPow2 (fsub32 (i2f32 (v:ℤ)) ⟨128, 0⟩) 7).toQ| ≤ 2 ^ (0:ℤ) := by
    apply fdivPow2_abs_le _ _ _ (by norm_num)
    norm_num at hsub ⊢
    exact hsub
  rw [show ((2:ℚ) ^ (0:ℤ)) = 1 by norm_num, abs_le] at hdiv
  exact hdiv

theorem pcmSignedSample_range (w8 : ℕ) (v : ℕ) (h1 : 1 ≤ w8)
    (hv : v < 2 ^ w8) :
    -1 ≤ (fdivPow2 (i2f32 (signedVal w8 v)) (w8 - 1)).toQ ∧
      (fdivPow2 (i2f32 (signedVal w8 v)) (w8 - 1)).toQ ≤ 1 := by
  obtain ⟨hl, hu⟩ := signedVal_bounds w8 v h1 hv
  have habs : |(signedVal w8 v : ℚ)| ≤ 2 ^ ((w8 - 1 : ℕ) : ℤ) := by
    rw [abs_le, zpow_natCast]
    constructor
    · exact_mod_cast hl
    · exact_mod_cast hu
  have h2 : |(i2f32 (signedVal w8 v)).toQ| ≤ 2 ^ ((w8 - 1 : ℕ) : ℤ) :=
    i2f32_abs_le _ _ (by omega) habs
  have h3 : |(fdivPow2 (i2f32 (signedVal w8 v)) (w8 - 1)).toQ| ≤ 2 ^ (0:ℤ) := by
    apply fdivPow2_abs_le _ _ _ (by norm_num)
    simpa using h2
  rw [show ((2:ℚ) ^ (0:ℤ)) = 1 by norm_num, abs_le] at h3
  exact h3

theorem pcm16Sample_range (v : ℕ) (hv : v < 65536) :
    ∃ d, pcm16Sample v = Sample.val d ∧ -1 ≤ d.toQ ∧ d.toQ ≤ 1 :=
  ⟨_, rfl, pcmSignedSample_range 16 v (by norm_num) (by norm_num; omega)⟩

theorem pcm24Sample_range (v : ℕ) (hv : v < 16777216) :
    ∃ d, pcm24Sample v = Sample.val d ∧ -1 ≤ d.toQ ∧ d.toQ ≤ 1 :=
  ⟨_, rfl, pcmSignedSample_range 24 v (by norm_num) (by norm_num; omega)⟩

theorem pcm32Sample_range (v : ℕ) (hv : v < 4294967296) :
    ∃ d, pcm32Sample v = Sample.val d ∧ -1 ≤ d.toQ ∧ d.toQ ≤ 1 :=
  ⟨_, rfl, pcmSignedSample_range 32 v (by norm_num) (by norm_num; omega)⟩

/-- Bridge from the integer-arithmetic test `Dy.valEq` to the rational
value. -/
theorem valEq_toQ (d : Dy) (num : ℤ) (p : ℕ) (h : Dy.valEq d num p = true) :
    d.toQ = (num : ℚ) / 2 ^ ((p:ℤ)) := by
  unfold Dy.valEq at h
  split at h
  · rename_i hnn
    have he := of_decide_eq_true h
    have : Dy.toQ ⟨d.m * 2 ^ (d.e + (p:ℤ)).toNat, 0⟩ = Dy.toQ ⟨num, 0⟩ := by rw [he]
    rw [toQ_shift] at this
    simp only [Dy.toQ, zpow_zero, mul_one, zero_add] at this
    have hcast : ((d.e + (p:ℤ)).toNat : ℤ) = d.e + (p:ℤ) := Int.toNat_of_nonneg hnn
    rw [hcast] at this
    unfold Dy.toQ
    rw [eq_div_iff (two_zpow_ne _)]
    calc (d.m : ℚ) * 2 ^ d.e * 2 ^ ((p:ℤ)) = (d.m : ℚ) * 2 ^ (d.e + (p:ℤ)) := by
          rw [mul_assoc, ← zpow_add₀ (by norm_num : (2:ℚ) ≠ 0)]
    _ = (num : ℚ) := this
  · rename_i hnn
    have he := of_decide_eq_true h
    have hcast : ((-(d.e + (p:ℤ))).toNat : ℤ) = -(d.e + (p:ℤ)) := Int.toNat_of_nonneg (by omega)
    unfold Dy.toQ
    rw [he, eq_div_iff (two_zpow_ne _)]
    push_cast
    rw [mul_assoc, mul_assoc, qpow_toNat_zpow _ (by omega : (0:ℤ) ≤ -(d.e + (p:ℤ))),
        ← zpow_add₀ (by norm_num : (2:ℚ) ≠ 0), ← zpow_add₀ (by norm_num : (2:ℚ) ≠ 0)]
    have : -(d.e + (p:ℤ)) + (d.e + (p:ℤ)) = 0 := by ring
    rw [this, zpow_zero, mul_one]

/-- The value of a dyadic with a negative literal exponent, as a quotient. -/
theorem toQ_negExp (m : ℤ) (k : ℕ) : Dy.toQ ⟨m, -(k:ℤ)⟩ = (m : ℚ) / 2 ^ k := by
  unfold Dy.toQ
  rw [zpow_neg, zpow_natCast]
  ring

/-! ### Read and frame-decoder lemmas -/

theorem byteAt_lt (buf : List Nat) (i : ℕ) : byteAt buf i < 256 :=
  Nat.mod_lt _ (by norm_num)

theorem leVal_lt (buf : List Nat) : ∀ w pos, leVal buf pos w < 256 ^ w := by
  intro w
  induction w with
  | zero => intro pos; simp [leVal]
  | succ w ih =>
    intro pos
    have h1 := byteAt_lt buf pos
    have h2 := ih (pos + 1)
    have : 256 ^ (w + 1) = 256 * 256 ^ w := by ring
    simp only [leVal]
    omega

theorem mkRead_eq (w : ℕ) (buf : List Nat) (pos : ℕ) (h : pos + w ≤ buf.length) :
    mkRead w buf pos = some (leVal buf pos w, pos + w) := by
  simp [mkRead, h]

theorem mkRead_some (w : ℕ) (buf : List Nat) (pos v p : ℕ)
    (h : mkRead w buf pos = some (v, p)) :
    v = leVal buf pos w ∧ p = pos + w ∧ pos + w ≤ buf.length := by
  unfold mkRead at h
  split at h
  · rename_i hle
    obtain ⟨h1, h2⟩ := Prod.mk.injEq .. ▸ Option.some.injEq .. ▸ h
    exact ⟨h1.symm, h2.symm, hle⟩
  · exact absurd h (by simp)

theorem decodeN_shape (w : ℕ) (g : ℕ → Sample) (buf : List Nat) :
    ∀ n pos fr p', decodeN w g buf n pos = some (fr, p') →
      fr.length = n ∧ p' = pos + n * w ∧ ∀ s ∈ fr, ∃ v, v < 256 ^ w ∧ s = g v := by
  intro n
  induction n with
  | zero =>
    intro pos fr p' h
    simp only [decodeN, Option.some.injEq, Prod.mk.injEq] at h
    obtain ⟨h1, h2⟩ := h
    subst h1; subst h2
    simp
  | succ n ih =>
    intro pos fr p' h
    simp only [decodeN] at h
    cases hr : mkRead w buf pos with
    | none => rw [hr] at h; exact absurd h (by simp)
    | some vp =>
      obtain ⟨v, p1⟩ := vp
      rw [hr] at h
      dsimp only at h
      cases hd : decodeN w g buf n p1 with
      | none => rw [hd] at h; exact absurd h (by simp)
      | some frp =>
        obtain ⟨fr1, p2⟩ := frp
        rw [hd] at h
        simp only [Option.some.injEq, Prod.mk.injEq] at h
        obtain ⟨h1, h2⟩ := h
        subst h1; subst h2
        obtain ⟨hv, hp, hle⟩ := mkRead_some w buf pos v p1 hr
        obtain ⟨ih1, ih2, ih3⟩ := ih p1 fr1 p2 hd
        have hmul : (n + 1) * w = n * w + w := by ring
        refine ⟨by simp [ih1], by omega, ?_⟩
        intro s hs
        rcases List.mem_cons.mp hs with hs | hs
        · subst hs
          exact ⟨v, hv ▸ leVal_lt buf w pos, rfl⟩
        · exact ih3 s hs

theorem decodeN_success (w : ℕ) (g : ℕ → Sample) (buf : List Nat) :
    ∀ n pos, pos + n * w ≤ buf.length →
      ∃ fr, decodeN w g buf n pos = some (fr, pos + n * w) := by
  intro n
  induction n with
  | zero => intro pos _; exact ⟨[], by simp [decodeN]⟩
  | succ n ih =>
    intro pos hle
    have h1 : pos + w ≤ buf.length := by
      have : w ≤ (n + 1) * w := by
        calc w = 1 * w := (one_mul w).symm
        _ ≤ (n + 1) * w := Nat.mul_le_mul_right w (by omega)
      omega
    obtain ⟨fr, hfr⟩ := ih (pos + w) (by
      have : pos + w + n * w = pos + (n + 1) * w := by ring
      omega)
    refine ⟨g (leVal buf pos w) :: fr, ?_⟩
    simp only [decodeN, mkRead_eq w buf pos h1, hfr]
    congr 2
    ring

theorem decodeN_region (w : ℕ) (g : ℕ → Sample) (b1 b2 : List Nat) (o1 o2 sz : ℕ)
    (hreg : (b1.drop o1).take sz = (b2.drop o2).take sz) (hw : 1 ≤ w) :
    ∀ n pos, pos + n * w ≤ sz →
      RelShift o1 o2 (decodeN w g b1 n (o1 + pos)) (decodeN w g b2 n (o2 + pos)) := by
  have hlen : min sz (b1.length - o1) = min sz (b2.length - o2) := by
    have h1 := congrArg List.length hreg
    simpa [List.length_take, List.length_drop] using h1
  have hbyte : ∀ j, j < sz → byteAt b1 (o1 + j) = byteAt b2 (o2 + j) := by
    intro j hj
    unfold byteAt
    have h1 : b1.getD (o1 + j) 0 = b2.getD (o2 + j) 0 := by
      have e1 : ((b1.drop o1).take sz).getD j 0 = b1.getD (o1 + j) 0 := by
        simp [List.getD_eq_getElem?_getD, List.getElem?_take_of_lt hj, List.getElem?_drop]
      have e2 : ((b2.drop o2).take sz).getD j 0 = b2.getD (o2 + j) 0 := by
        simp [List.getD_eq_getElem?_getD, List.getElem?_take_of_lt hj, List.getElem?_drop]
      rw [← e1, ← e2, hreg]
    rw [h1]
  have hleVal : ∀ ww pos, pos + ww ≤ sz → leVal b1 (o1 + pos) ww = leVal b2 (o2 + pos) ww := by
    intro ww
    induction ww with
    | zero => intro pos _; simp [leVal]
    | succ ww ih =>
      intro pos hp
      simp only [leVal]
      rw [hbyte pos (by omega)]
      have : o1 + pos + 1 = o1 + (pos + 1) := by ring
      rw [this, show o2 + pos + 1 = o2 + (pos + 1) by ring, ih (pos + 1) (by omega)]
  have hmk : ∀ pos, pos + w ≤ sz →
      (mkRead w b1 (o1 + pos) = none ∧ mkRead w b2 (o2 + pos) = none) ∨
      ∃ v, mkRead w b1 (o1 + pos) = some (v, o1 + (pos + w)) ∧
           mkRead w b2 (o2 + pos) = some (v, o2 + (pos + w)) := by
    intro pos hp
    unfold mkRead
    by_cases hin : o1 + pos + w ≤ b1.length
    · have hin2 : o2 + pos + w ≤ b2.length := by omega
      rw [if_pos hin, if_pos hin2]
      right
      refine ⟨leVal b1 (o1 + pos) w, ?_, ?_⟩
      · congr 1
        rw [Prod.mk.injEq]
        exact ⟨rfl, by ring⟩
      · rw [hleVal w pos hp]
        congr 1
        rw [Prod.mk.injEq]
        exact ⟨rfl, by ring⟩
    · have hin2 : ¬ (o2 + pos + w ≤ b2.length) := by omega
      rw [if_neg hin, if_neg hin2]
      exact Or.inl ⟨rfl, rfl⟩
  intro n
  induction n with
  | zero =>
    intro pos _
    exact Or.inr ⟨[], pos, by simp [decodeN], by simp [decodeN]⟩
  | succ n ih =>
    intro pos hp
    have hp1 : pos + w ≤ sz := by
      have : w ≤ (n + 1) * w := by
        calc w = 1 * w := (one_mul w).symm
        _ ≤ (n + 1) * w := Nat.mul_le_mul_right w (by omega)
      omega
    rcases hmk pos hp1 with ⟨hm1, hm2⟩ | ⟨v, hm1, hm2⟩
    · simp only [decodeN, hm1, hm2]
      exact Or.inl ⟨rfl, rfl⟩
    · have hrec := ih (pos + w) (by
        have : pos + w + n * w = pos + (n + 1) * w := by ring
        omega)
      rcases hrec with ⟨hr1, hr2⟩ | ⟨fr, q, hr1, hr2⟩
      · simp only [decodeN, hm1, hm2, hr1, hr2]
        exact Or.inl ⟨rfl, rfl⟩
      · simp only [decodeN, hm1, hm2, hr1, hr2]
        exact Or.inr ⟨g v :: fr, q, rfl, rfl⟩

theorem frameDecode_success (df : Option Format) (buf : List Nat) (p ch bps : ℕ)
    (hd : (df = some Format.PCM ∧ (bps = 1 ∨ bps = 2 ∨ bps = 3 ∨ bps = 4)) ∨
          (df = some Format.IEEEFloat ∧ (bps = 4 ∨ bps = 8)))
    (hfit : p + ch * bps ≤ buf.length) :
    ∃ fr, frameDecode df buf p ch bps = some (fr, p + ch * bps) := by
  rcases hd with ⟨hdf, hb⟩ | ⟨hdf, hb⟩
  · subst hdf
    rcases hb with rfl | rfl | rfl | rfl <;>
      simpa [frameDecode, next_pcm, next_pcm8, next_pcm16, next_pcm24, next_pcm32] using
        decodeN_success _ _ buf ch p hfit
  · subst hdf
    rcases hb with rfl | rfl <;>
      simpa [frameDecode, next_float, next_float32, next_float64] using
        decodeN_success _ _ buf ch p hfit

theorem frameDecode_shape (df : Option Format) (buf : List Nat) (p ch bps : ℕ)
    (fr : Frame) (np : ℕ) (h : frameDecode df buf p ch bps = some (fr, np)) :
    fr.length = ch ∧ np = p + ch * bps ∧
    (df = some Format.PCM →
      ∀ s ∈ fr, ∃ d, s = Sample.val d ∧ -1 ≤ d.toQ ∧ d.toQ ≤ 1) := by
  match df with
  | none => exact absurd h (by simp [frameDecode])
  | some Format.Extensible => exact absurd h (by simp [frameDecode])
  | some Format.IEEEFloat =>
    simp only [frameDecode] at h
    unfold next_float next_float32 next_float64 at h
    split at h
    · rename_i hb; subst hb
      obtain ⟨h1, h2, _⟩ := decodeN_shape 4 float32Sample buf ch p fr np h
      exact ⟨h1, h2, fun hc => by cases hc⟩
    split at h
    · rename_i hb; subst hb
      obtain ⟨h1, h2, _⟩ := decodeN_shape 8 float64Sample buf ch p fr np h
      exact ⟨h1, h2, fun hc => by cases hc⟩
    · exact absurd h (by simp)
  | some Format.PCM =>
    simp only [frameDecode] at h
    unfold next_pcm next_pcm8 next_pcm16 next_pcm24 next_pcm32 at h
    split at h
    · rename_i hb; subst hb
      obtain ⟨h1, h2, h3⟩ := decodeN_shape 1 pcm8Sample buf ch p fr np h
      refine ⟨h1, h2, fun _ s hs => ?_⟩
      obtain ⟨v, hv, rfl⟩ := h3 s hs
      obtain ⟨d, hd, hbd⟩ := pcm8Sample_range v (by norm_num at hv; exact hv)
      exact ⟨d, hd, hbd⟩
    split at h
    · rename_i hb; subst hb
      obtain ⟨h1, h2, h3⟩ := decodeN_shape 2 pcm16Sample buf ch p fr np h
      refine ⟨h1, h2, fun _ s hs => ?_⟩
      obtain ⟨v, hv, rfl⟩ := h3 s hs
      obtain ⟨d, hd, hbd⟩ := pcm16Sample_range v (by norm_num at hv; exact hv)
      exact ⟨d, hd, hbd⟩
    split at h
    · rename_i hb; subst hb
      obtain ⟨h1, h2, h3⟩ := decodeN_shape 3 pcm24Sample buf ch p fr np h
      refine ⟨h1, h2, fun _ s hs => ?_⟩
      obtain ⟨v, hv, rfl⟩ := h3 s hs
      obtain ⟨d, hd, hbd⟩ := pcm24Sample_range v (by norm_num at hv; exact hv)
      exact ⟨d, hd, hbd⟩
    split at h
    · rename_i hb; subst hb
      obtain ⟨h1, h2, h3⟩ := decodeN_shape 4 pcm32Sample buf ch p fr np h
      refine ⟨h1, h2, fun _ s hs => ?_⟩
      obtain ⟨v, hv, rfl⟩ := h3 s hs
      obtain ⟨d, hd, hbd⟩ := pcm32Sample_range v (by norm_num at hv; exact hv)
      exact ⟨d, hd, hbd⟩
    · exact absurd h (by simp)

theorem frameDecode_region (df : Option Format) (b1 b2 : List Nat) (o1 o2 sz ch bps pos : ℕ)
    (hreg : (b1.drop o1).take sz = (b2.drop o2).take sz)
    (hfit : pos + ch * bps ≤ sz) :
    RelShift o1 o2 (frameDecode df b1 (o1 + pos) ch bps)
      (frameDecode df b2 (o2 + pos) ch bps) := by
  match df with
  | none => exact Or.inl ⟨rfl, rfl⟩
  | some Format.Extensible => exact Or.inl ⟨rfl, rfl⟩
  | some Format.PCM =>
    simp only [frameDecode]
    unfold next_pcm next_pcm8 next_pcm16 next_pcm24 next_pcm32
    split
    · rename_i hb; subst hb
      exact decodeN_region 1 _ b1 b2 o1 o2 sz hreg (by norm_num) ch pos hfit
    split
    · rename_i hb; subst hb
      exact decodeN_region 2 _ b1 b2 o1 o2 sz hreg (by norm_num) ch pos hfit
    split
    · rename_i hb; subst hb
      exact decodeN_region 3 _ b1 b2 o1 o2 sz hreg (by norm_num) ch pos hfit
    split
    · rename_i hb; subst hb
      exact decodeN_region 4 _ b1 b2 o1 o2 sz hreg (by norm_num) ch pos hfit
    · exact Or.inl ⟨rfl, rfl⟩
  | some Format.IEEEFloat =>
    simp only [frameDecode]
    unfold next_float next_float32 next_float64
    split
    · rename_i hb; subst hb
      exact decodeN_region 4 _ b1 b2 o1 o2 sz hreg (by norm_num) ch pos hfit
    split
    · rename_i hb; subst hb
      exact decodeN_region 8 _ b1 b2 o1 o2 sz hreg (by norm_num) ch pos hfit
    · exact Or.inl ⟨rfl, rfl⟩

/-- When the data-chunk length is an exact multiple `k` of the frame size and
the chunk lies inside the buffer, the iterator yields exactly `k` frames and
then reports clean exhaustion. -/
theorem iterateAux_count (w : WaveFile) (bps : ℕ)
    (hd : (data_format w.info = some Format.PCM ∧ (bps = 1 ∨ bps = 2 ∨ bps = 3 ∨ bps = 4)) ∨
          (data_format w.info = some Format.IEEEFloat ∧ (bps = 4 ∨ bps = 8)))
    (hch : 1 ≤ w.info.channels)
    (hfit : w.data_offset + w.data_size ≤ w.buf.length) :
    ∀ fuel k pos, pos + w.info.channels * bps * k = w.data_size → k < fuel →
      ∃ frames, iterateAux w bps fuel pos = IterResult.finished frames ∧
        frames.length = k := by
  have hbps : 1 ≤ bps := by rcases hd with ⟨_, h⟩ | ⟨_, h⟩ <;> omega
  have hfB : 1 ≤ w.info.channels * bps := Nat.mul_pos hch hbps
  intro fuel
  induction fuel with
  | zero => intro k pos _ hlt; omega
  | succ fuel ih =>
    intro k pos hk hlt
    match k with
    | 0 =>
      rw [Nat.mul_zero, Nat.add_zero] at hk
      subst hk
      refine ⟨[], ?_, rfl⟩
      simp [iterateAux, iterNext]
    | j + 1 =>
      have hexp : w.info.channels * bps * (j + 1) = w.info.channels * bps * j + w.info.channels * bps := by
        ring
      rw [hexp] at hk
      have hstep : pos + w.info.channels * bps ≤ w.data_size := by omega
      obtain ⟨fr, hfr⟩ := frameDecode_success (data_format w.info) w.buf
        (w.data_offset + pos) w.info.channels bps hd (by omega)
      have hne : ¬ (w.data_offset + pos = w.data_offset + w.data_size) := by omega
      obtain ⟨frames, hit, hlen⟩ := ih j (pos + w.info.channels * bps) (by omega) (by omega)
      refine ⟨fr :: frames, ?_, by simp [hlen]⟩
      simp only [iterateAux, iterNext]
      rw [if_neg hne, hfr]
      dsimp only
      have hq : w.data_offset + pos + w.info.channels * bps - w.data_offset =
          pos + w.info.channels * bps := by omega
      rw [hq, hit]

/-- Iteration depends on the buffer only through the bytes from the data
offset onward, as long as every decode stays inside the declared data chunk:
two handles with the same resolved format, channel count, data size and
data-chunk contents iterate identically. -/
theorem iterateAux_region (w1 w2 : WaveFile) (bps : ℕ)
    (hdf : data_format w1.info = data_format w2.info)
    (hch : w1.info.channels = w2.info.channels)
    (hsz : w1.data_size = w2.data_size)
    (hreg : (w1.buf.drop w1.data_offset).take w1.data_size =
            (w2.buf.drop w2.data_offset).take w2.data_size)
    (hch1 : 1 ≤ w1.info.channels) (hbps : 1 ≤ bps) :
    ∀ fuel k pos, pos + w1.info.channels * bps * k = w1.data_size →
      iterateAux w1 bps fuel pos = iterateAux w2 bps fuel pos := by
  have hfB : 1 ≤ w1.info.channels * bps := Nat.mul_pos hch1 hbps
  intro fuel
  induction fuel with
  | zero => intro k pos _; rfl
  | succ fuel ih =>
    intro k pos hk
    match k with
    | 0 =>
      rw [Nat.mul_zero, Nat.add_zero] at hk
      subst hk
      simp [iterateAux, iterNext, hsz]
    | j + 1 =>
      have hexp : w1.info.channels * bps * (j + 1) =
          w1.info.channels * bps * j + w1.info.channels * bps := by ring
      rw [hexp] at hk
      have hfB0 : pos + w1.info.channels * bps ≤ w1.data_size := by omega
      have hrel := frameDecode_region (data_format w1.info) w1.buf w2.buf
        w1.data_offset w2.data_offset w1.data_size w1.info.channels bps pos
        (by rw [hsz] at hreg ⊢; exact hreg) hfB0
      have hne1 : ¬ (w1.data_offset + pos = w1.data_offset + w1.data_size) := by omega
      have hne2 : ¬ (w2.data_offset + pos = w2.data_offset + w2.data_size) := by omega
      rcases hrel with ⟨hm1, hm2⟩ | ⟨fr, q, hm1, hm2⟩
      · simp only [iterateAux, iterNext]
        rw [if_neg hne1, if_neg hne2, ← hdf, ← hch, hm1, hm2]
      · have hq : q = pos + w1.info.channels * bps := by
          obtain ⟨_, hnp, _⟩ := frameDecode_shape _ _ _ _ _ _ _ hm1
          omega
        have hrec := ih j (pos + w1.info.channels * bps) (by omega)
        simp only [iterateAux, iterNext]
        rw [if_neg hne1, if_neg hne2, ← hdf, ← hch, hm1, hm2]
        dsimp only
        have hs1 : w1.data_offset + q - w1.data_offset = q := by omega
        have hs2 : w2.data_offset + q - w2.data_offset = q := by omega
        rw [hs1, hs2, hq, hrec]

/-! ### Parser lemmas -/

theorem validate_format_ok (info : WaveInfo) (h : validate_format info = RResult.ok ()) :
    1 ≤ info.channels ∧ 8 ≤ info.bits_per_sample := by
  unfold validate_format at h
  split at h
  · exact absurd h (by simp)
  split at h
  · exact absurd h (by simp)
  split at h
  · exact absurd h (by simp)
  split at h
  · exact absurd h (by simp)
  · rename_i hch hbps _ _ _
    omega

theorem validate_format_set_total (info : WaveInfo) (t : ℕ) :
    validate_format { info with total_frames := t } = validate_format info := by
  cases info
  rfl

theorem withRead_none {α : Type} (k : ℕ → ℕ → RResult α) :
    withRead none k = RResult.err (WaveError.parseError ("Unexpected EOF")) := rfl

theorem withRead_some {α : Type} (v p : ℕ) (k : ℕ → ℕ → RResult α) :
    withRead (some (v, p)) k = k v p := rfl

theorem chunkLoop_size_lt (buf : List Nat) :
    ∀ fuel pos info hf i b dpos dsize,
      chunkLoop buf fuel pos info hf = RResult.ok (i, b, dpos, dsize) → dsize < 2 ^ 32 := by
  intro fuel
  induction fuel with
  | zero =>
    intro pos info hf i b dpos dsize h
    exact absurd h (by simp [chunkLoop])
  | succ fuel ih =>
    intro pos info hf i b dpos dsize h
    unfold chunkLoop at h
    cases hrd1 : read_u32_le buf pos with
    | none => rw [hrd1, withRead_none] at h; exact absurd h (by simp)
    | some vp1 =>
      obtain ⟨cid, p1⟩ := vp1
      rw [hrd1, withRead_some] at h
      cases hrd2 : read_u32_le buf p1 with
      | none => rw [hrd2, withRead_none] at h; exact absurd h (by simp)
      | some vp2 =>
        obtain ⟨csize, p2⟩ := vp2
        rw [hrd2, withRead_some] at h
        split at h
        · -- fmt chunk
          split at h
          · exact ih _ _ _ _ _ _ _ h
          · exact absurd h (by simp)
          · exact absurd h (by simp)
          · exact absurd h (by simp)
        split at h
        · -- data chunk: the declared size is a u32 read
          simp only [RResult.ok.injEq, Prod.mk.injEq] at h
          obtain ⟨_, _, _, hsz⟩ := h
          obtain ⟨hv, _, _⟩ := mkRead_some 4 buf p1 csize p2 hrd2
          subst hsz
          subst hv
          have := leVal_lt buf 4 p1
          omega
        split at h
        · -- LIST / fact: skip
          exact ih _ _ _ _ _ _ _ h
        · exact absurd h (by simp)

theorem read_chunks_ok (i0 : WaveInfo) (buf : List Nat) (i : WaveInfo) (o s : ℕ)
    (h : read_chunks i0 buf = RResult.ok (i, o, s)) :
    validate_format i = RResult.ok () ∧
    i.channels * i.bits_per_sample / 8 ≠ 0 ∧
    s < 2 ^ 32 ∧
    i.total_frames = s / (i.channels * i.bits_per_sample / 8) := by
  unfold read_chunks at h
  cases hrd1 : read_u32_le buf 0 with
  | none => rw [hrd1, withRead_none] at h; exact absurd h (by simp)
  | some vp1 =>
  obtain ⟨cid, p1⟩ := vp1
  rw [hrd1, withRead_some] at h
  cases hrd2 : read_u32_le buf p1 with
  | none => rw [hrd2, withRead_none] at h; exact absurd h (by simp)
  | some vp2 =>
  obtain ⟨sz0, p2⟩ := vp2
  rw [hrd2, withRead_some] at h
  cases hrd3 : read_u32_le buf p2 with
  | none => rw [hrd3, withRead_none] at h; exact absurd h (by simp)
  | some vp3 =>
  obtain ⟨rtype, p3⟩ := vp3
  rw [hrd3, withRead_some] at h
  split at h
  · exact absurd h (by simp)
  cases hloop : chunkLoop buf (buf.length + 1) p3 i0 false with
  | err e => rw [hloop] at h; exact absurd h (by simp)
  | panic => rw [hloop] at h; exact absurd h (by simp)
  | outOfFuel => rw [hloop] at h; exact absurd h (by simp)
  | ok quad =>
  obtain ⟨info2, hfmt, dpos, dsize⟩ := quad
  rw [hloop] at h
  dsimp only at h
  split at h
  · exact absurd h (by simp)
  rename_i hhave
  cases hval : validate_format info2 with
  | err e => rw [hval] at h; exact absurd h (by simp)
  | panic => rw [hval] at h; exact absurd h (by simp)
  | outOfFuel => rw [hval] at h; exact absurd h (by simp)
  | ok u =>
  rw [hval] at h
  dsimp only at h
  split at h
  · exact absurd h (by simp)
  rename_i hdiv
  simp only [RResult.ok.injEq, Prod.mk.injEq] at h
  obtain ⟨hi, ho, hs⟩ := h
  subst hs
  have hszlt : dsize < 2 ^ 32 := chunkLoop_size_lt buf _ _ _ _ _ _ _ _ hloop
  subst hi
  refine ⟨?_, ?_, hszlt, ?_⟩
  · rw [validate_format_set_total]
    cases u
    exact hval
  · simpa using hdiv
  · simp
    have hszlt2 : dsize < 4294967296 := by omega
    rw [Nat.mod_eq_of_lt hszlt2]

theorem openWave_ok (buf : List Nat) (w : WaveFile) (h : openWave buf = RResult.ok w) :
    w.buf = buf ∧ validate_format w.info = RResult.ok () ∧
    w.info.channels * w.info.bits_per_sample / 8 ≠ 0 ∧
    w.data_size < 2 ^ 32 ∧
    w.info.total_frames = w.data_size / (w.info.channels * w.info.bits_per_sample / 8) := by
  unfold openWave at h
  cases heq : read_chunks info0 buf with
  | err e => rw [heq] at h; exact absurd h (by simp)
  | panic => rw [heq] at h; exact absurd h (by simp)
  | outOfFuel => rw [heq] at h; exact absurd h (by simp)
  | ok trip =>
  obtain ⟨info, doff, dsize⟩ := trip
  rw [heq] at h
  dsimp only at h
  simp only [RResult.ok.injEq] at h
  subst h
  obtain ⟨hval, hdiv, hlt, htot⟩ := read_chunks_ok info0 buf info doff dsize heq
  exact ⟨rfl, hval, hdiv, hlt, htot⟩

/-! ### Format-chunk extension handling -/

/-- When the format tag at `pos` is `0xFFFE` (Extensible), the chunk header
is in bounds, and the 16-bit extension-size field (at offset 16 inside the
chunk) is anything other than 22, `read_format_chunk` is a fatal
`ParseError`. -/
theorem ext_size_ne22_parse_error (info : WaveInfo) (buf : List Nat) (pos : ℕ)
    (hlen : pos + 18 ≤ buf.length)
    (htag : leVal buf pos 2 = 65534)
    (hext : leVal buf (pos + 16) 2 ≠ 22) :
    read_format_chunk info buf pos =
      RResult.err (WaveError.parseError ("Unexpected extension size")) := by
  unfold read_format_chunk
  rw [show read_u16_le buf pos = some (leVal buf pos 2, pos + 2) from
    mkRead_eq 2 buf pos (by omega), withRead_some, htag]
  norm_num [Format.decode]
  rw [show read_u16_le buf (pos + 2) = some (leVal buf (pos + 2) 2, pos + 2 + 2) from
    mkRead_eq 2 buf (pos + 2) (by omega), withRead_some]
  rw [show read_u32_le buf (pos + 2 + 2) = some (leVal buf (pos + 2 + 2) 4, pos + 2 + 2 + 4) from
    mkRead_eq 4 buf (pos + 2 + 2) (by omega), withRead_some]
  rw [show read_u32_le buf (pos + 2 + 2 + 4) =
      some (leVal buf (pos + 2 + 2 + 4) 4, pos + 2 + 2 + 4 + 4) from
    mkRead_eq 4 buf (pos + 2 + 2 + 4) (by omega), withRead_some]
  rw [show read_u16_le buf (pos + 2 + 2 + 4 + 4) =
      some (leVal buf (pos + 2 + 2 + 4 + 4) 2, pos + 2 + 2 + 4 + 4 + 2) from
    mkRead_eq 2 buf (pos + 2 + 2 + 4 + 4) (by omega), withRead_some]
  rw [show read_u16_le buf (pos + 2 + 2 + 4 + 4 + 2) =
      some (leVal buf (pos + 2 + 2 + 4 + 4 + 2) 2, pos + 2 + 2 + 4 + 4 + 2 + 2) from
    mkRead_eq 2 buf (pos + 2 + 2 + 4 + 4 + 2) (by omega), withRead_some]
  rw [show pos + 2 + 2 + 4 + 4 + 2 + 2 = pos + 16 by ring]
  rw [show read_u16_le buf (pos + 16) = some (leVal buf (pos + 16) 2, pos + 16 + 2) from
    mkRead_eq 2 buf (pos + 16) (by omega), withRead_some]
  simp [hext]

set_option maxRecDepth 10000 in
/-- The 8-bit PCM decode chain, checked exhaustively over all byte values by
integer arithmetic. -/
theorem pcm8_valEq_all : ((List.range 256).all fun v =>
    Dy.valEq (fdivPow2 (fsub32 (i2f32 (v : ℤ)) ⟨128, 0⟩) 7) ((v : ℤ) - 128) 7) = true := by
  decide

/-! ### The claims -/

/-- C1: the spec says `open` must return `Unsupported` when an Extensible
header's subformat is unset or not PCM/IEEE-float.  The code has no such
check: this file (subformat tag `0xFFFE`, i.e. Extensible itself) opens
successfully, its resolved data format is `Extensible`, and the very first
`next()` call hits the `_ => unreachable!()` arm and panics — contradicting
both the spec and the code's own doc comment on `subformat` and its
`unreachable!` assertion. -/
theorem c1_subformat_extensible_panics :
    openedDataFormat extExtBytes = some (some Format.Extensible) ∧
    openedTotalFrames extExtBytes = some 1 ∧
    openedFirstStep extExtBytes = some IterStep.panic := by
  decide

/-- C2 counterexample: parsing an Extensible format chunk whose extension
size field is 0 does not succeed (and leaves no unset subformat behind) —
it is a fatal `ParseError`, contrary to the claim. -/
theorem c2_counterexample :
    read_format_chunk info0 extSize0Fmt 0 =
      RResult.err (WaveError.parseError ("Unexpected extension size")) := by
  decide

/-- C2 (amended): for a header declaring Extensible, any extension-size
value other than 22 — including 0 — makes `read_format_chunk` fail with a
`ParseError`; the subformat can therefore never remain unset after a
successful parse of an Extensible format chunk. -/
theorem c2_amended_ext_size_error (info : WaveInfo) (buf : List Nat) (pos : ℕ)
    (hlen : pos + 18 ≤ buf.length)
    (htag : leVal buf pos 2 = 65534)
    (hext : leVal buf (pos + 16) 2 ≠ 22) :
    read_format_chunk info buf pos =
      RResult.err (WaveError.parseError ("Unexpected extension size")) :=
  ext_size_ne22_parse_error info buf pos hlen htag hext

/-- C2 witness: the amended theorem applied to a concrete Extensible format
chunk with extension size 5. -/
theorem c2_witness :
    read_format_chunk info0 extSize5Fmt 0 =
      RResult.err (WaveError.parseError ("Unexpected extension size")) :=
  c2_amended_ext_size_error info0 extSize5Fmt 0 (by decide) (by decide) (by decide)

/-- C3: the spec says iteration must stop at the declared data end and never
read at or past it even when the data length is not a frame multiple.  The
code only stops on `position == end`: on this file (data chunk of 3 bytes,
16-bit mono, so `end` is offset 47) the first `next` succeeds and the second
`next` attempts a 2-byte read at offsets 46..47 — touching the declared end
— and, the buffer ending there, panics on the short read instead of
stopping. -/
theorem c3_iterator_overruns_and_panics :
    openedDataChunk odd3Bytes = some [1, 2, 3] ∧
    openedTotalFrames odd3Bytes = some 1 ∧
    iterAfterOpen odd3Bytes 5 =
      some (IterResult.panicked [[Sample.val ⟨8404992, -29⟩]]) := by
  decide

/-- C4 counterexample: a successfully opened handle (data chunk of 3 bytes,
16-bit mono, two spare bytes after the chunk) reports `total_frames = 1`,
but a fresh iterator yields two frames and then panics — it is never
cleanly exhausted, so the yielded count does not equal `total_frames`. -/
theorem c4_counterexample :
    openedTotalFrames odd3PlusBytes = some 1 ∧
    iterAfterOpen odd3PlusBytes 6 =
      some (IterResult.panicked
        [[Sample.val ⟨8404992, -29⟩], [Sample.val ⟨8413184, -28⟩]]) := by
  decide

/-- C4 (amended): for a successfully opened handle whose encoding/bit-depth
pair is one of the six the decoder implements, whose data chunk lies inside
the buffer, and whose data-chunk length is an exact multiple of the frame
size `channels * (bits_per_sample / 8)`, a fresh iterator yields exactly
`total_frames` frames and then reports clean exhaustion. -/
theorem c4_amended (buf : List Nat) (w : WaveFile) (ho : openWave buf = RResult.ok w)
    (hfit : w.data_offset + w.data_size ≤ w.buf.length)
    (hd : (data_format w.info = some Format.PCM ∧
            (w.info.bits_per_sample = 8 ∨ w.info.bits_per_sample = 16 ∨
             w.info.bits_per_sample = 24 ∨ w.info.bits_per_sample = 32)) ∨
          (data_format w.info = some Format.IEEEFloat ∧
            (w.info.bits_per_sample = 32 ∨ w.info.bits_per_sample = 64)))
    (hdvd : w.info.channels * (w.info.bits_per_sample / 8) ∣ w.data_size) :
    ∃ frames, iterate w (w.data_size + 1) = IterResult.finished frames ∧
      frames.length = w.info.total_frames := by
  obtain ⟨hbuf, hval, hdiv0, hlt, htot⟩ := openWave_ok buf w ho
  obtain ⟨hch, hbps8⟩ := validate_format_ok w.info hval
  have hd' : (data_format w.info = some Format.PCM ∧
      (w.info.bits_per_sample / 8 = 1 ∨ w.info.bits_per_sample / 8 = 2 ∨
       w.info.bits_per_sample / 8 = 3 ∨ w.info.bits_per_sample / 8 = 4)) ∨
      (data_format w.info = some Format.IEEEFloat ∧
       (w.info.bits_per_sample / 8 = 4 ∨ w.info.bits_per_sample / 8 = 8)) := by
    rcases hd with ⟨hdf, hb⟩ | ⟨hdf, hb⟩
    · exact Or.inl ⟨hdf, by rcases hb with h | h | h | h <;> rw [h] <;> norm_num⟩
    · exact Or.inr ⟨hdf, by rcases hb with h | h <;> rw [h] <;> norm_num⟩
  have hdvd8 : 8 ∣ w.info.bits_per_sample := by
    rcases hd with ⟨_, hb⟩ | ⟨_, hb⟩
    · rcases hb with h | h | h | h <;> rw [h] <;> norm_num
    · rcases hb with h | h <;> rw [h] <;> norm_num
  obtain ⟨k, hk⟩ := hdvd
  have hb1 : 1 ≤ w.info.bits_per_sample / 8 := by omega
  have hfb1 : 1 ≤ w.info.channels * (w.info.bits_per_sample / 8) :=
    Nat.mul_pos hch hb1
  have hkle : k ≤ w.data_size := by
    have := Nat.le_mul_of_pos_left k hfb1
    omega
  obtain ⟨frames, hfin, hlen⟩ := iterateAux_count w (w.info.bits_per_sample / 8) hd' hch hfit
    (w.data_size + 1) k 0 (by omega) (by omega)
  refine ⟨frames, hfin, ?_⟩
  rw [hlen, htot, Nat.mul_div_assoc w.info.channels hdvd8, hk,
      Nat.mul_div_cancel_left k hfb1]

/-- C4 witness: the amended theorem applied to a well-formed 16-bit mono
PCM file with two frames. -/
theorem c4_witness :
    ∃ frames, iterate pcm16Wave (pcm16Wave.data_size + 1) = IterResult.finished frames ∧
      frames.length = pcm16Wave.info.total_frames :=
  c4_amended pcm16Bytes pcm16Wave (by decide) (by decide) (by decide) (by decide)

/-- C5 counterexample: a successfully opened 32-bit IEEE-float file whose
single sample is 2.0: the frame is passed through undamped, so the sample
value exceeds 1 — float samples are not confined to `[-1, 1]`. -/
theorem c5_counterexample :
    openedFirstFrame float2Bytes = some [Sample.val ⟨8388608, -22⟩] ∧
    openedDataFormat float2Bytes = some (some Format.IEEEFloat) ∧
    1 < Dy.toQ ⟨8388608, -22⟩ := by
  refine ⟨by decide, by decide, ?_⟩
  unfold Dy.toQ
  norm_num

/-- C5 (amended): every frame the iterator yields holds exactly
`channels` samples, and when the resolved data format is PCM every sample
is a finite value in `[-1.0, 1.0]`; IEEE-float source samples are passed
through unchanged and need not lie in that range (see the
counterexample). -/
theorem c5_amended (w : WaveFile) (bps pos : ℕ) (fr : Frame) (p' : ℕ)
    (h : iterNext w bps pos = IterStep.yield fr p') :
    fr.length = w.info.channels ∧
    (data_format w.info = some Format.PCM →
      ∀ s ∈ fr, ∃ d, s = Sample.val d ∧ -1 ≤ d.toQ ∧ d.toQ ≤ 1) := by
  simp only [iterNext] at h
  split at h
  · exact absurd h (by simp)
  · cases hfd : frameDecode (data_format w.info) w.buf (w.data_offset + pos)
        w.info.channels bps with
    | none => rw [hfd] at h; exact absurd h (by simp)
    | some frp =>
      obtain ⟨fr0, np⟩ := frp
      rw [hfd] at h
      dsimp only at h
      simp only [IterStep.yield.injEq] at h
      obtain ⟨h1, _⟩ := h
      subst h1
      obtain ⟨hl, _, hp⟩ := frameDecode_shape _ _ _ _ _ _ _ hfd
      exact ⟨hl, hp⟩

/-- C5 witness: the amended theorem applied to the first frame of the
16-bit mono PCM file (sample `0x4000`, i.e. 1/2). -/
theorem c5_witness :
    ([Sample.val ⟨8388608, -24⟩] : Frame).length = pcm16Wave.info.channels ∧
    (data_format pcm16Wave.info = some Format.PCM →
      ∀ s ∈ ([Sample.val ⟨8388608, -24⟩] : Frame),
        ∃ d, s = Sample.val d ∧ -1 ≤ d.toQ ∧ d.toQ ≤ 1) :=
  c5_amended pcm16Wave 2 0 [Sample.val ⟨8388608, -24⟩] 2 (by decide)

/-- C6: for every successfully opened handle, `total_frames` equals the
declared data-chunk byte length divided (truncating) by
`channels * bits_per_sample / 8`, exactly as `read_chunks` computes it once
after locating the data chunk. -/
theorem c6_total_frames (buf : List Nat) (w : WaveFile)
    (h : openWave buf = RResult.ok w) :
    w.info.total_frames =
      w.data_size / (w.info.channels * w.info.bits_per_sample / 8) :=
  (openWave_ok buf w h).2.2.2.2

/-- C6 witness: 4 data bytes / (1 channel * 16 bits / 8) = 2 frames. -/
theorem c6_witness :
    pcm16Wave.info.total_frames =
      pcm16Wave.data_size / (pcm16Wave.info.channels * pcm16Wave.info.bits_per_sample / 8) :=
  c6_total_frames pcm16Bytes pcm16Wave (by decide)

/-- C7 counterexample: two successfully opened 32-bit float files — one
Extensible with subformat IEEE-float, one plain IEEE-float — whose declared
data chunks hold identical bytes `[0, 0]`, yet whose iterators yield
different samples (2.0 vs 0.5): because the data length (2) is not a frame
multiple, the decoder reads past the declared end, where the two buffers
differ.  The claim as stated (identical data-chunk bytes suffice) is
therefore false on the code. -/
theorem c7_counterexample :
    openedDataChunk extFloatShortBytes = some [0, 0] ∧
    openedDataChunk plainFloatShortBytes = some [0, 0] ∧
    openedAudioFormat extFloatShortBytes = some Format.Extensible ∧
    openedAudioFormat plainFloatShortBytes = some Format.IEEEFloat ∧
    openedDataFormat extFloatShortBytes = some (some Format.IEEEFloat) ∧
    openedDataFormat plainFloatShortBytes = some (some Format.IEEEFloat) ∧
    openedBitsPerSample extFloatShortBytes = some 32 ∧
    openedBitsPerSample plainFloatShortBytes = some 32 ∧
    iterAfterOpen extFloatShortBytes 5 =
      some (IterResult.panicked [[Sample.val ⟨8388608, -22⟩]]) ∧
    iterAfterOpen plainFloatShortBytes 5 =
      some (IterResult.panicked [[Sample.val ⟨8388608, -24⟩]]) ∧
    Dy.toQ ⟨8388608, -22⟩ ≠ Dy.toQ ⟨8388608, -24⟩ := by
  refine ⟨by decide, by decide, by decide, by decide, by decide, by decide,
    by decide, by decide, by decide, by decide, ?_⟩
  unfold Dy.toQ
  norm_num

/-- C7 (amended): for two successfully opened handles — one declared
Extensible with subformat IEEE-float, one plain IEEE-float — with 32 bits
per sample, equal channel counts, equal data-chunk sizes, identical
data-chunk bytes, and a data-chunk length that is an exact multiple of the
frame size (so that decoding never reads past the declared chunk), fresh
iterators yield identical results at every fuel. -/
theorem c7_amended (b1 b2 : List Nat) (w1 w2 : WaveFile)
    (h1 : openWave b1 = RResult.ok w1) (_h2 : openWave b2 = RResult.ok w2)
    (haf1 : w1.info.audio_format = Format.Extensible)
    (hsf1 : w1.info.subformat = some Format.IEEEFloat)
    (haf2 : w2.info.audio_format = Format.IEEEFloat)
    (hb1 : w1.info.bits_per_sample = 32) (hb2 : w2.info.bits_per_sample = 32)
    (hch : w1.info.channels = w2.info.channels)
    (hsz : w1.data_size = w2.data_size)
    (hreg : (w1.buf.drop w1.data_offset).take w1.data_size =
            (w2.buf.drop w2.data_offset).take w2.data_size)
    (hdvd : w1.info.channels * 4 ∣ w1.data_size) :
    ∀ fuel, iterate w1 fuel = iterate w2 fuel := by
  intro fuel
  have hdf1 : data_format w1.info = some Format.IEEEFloat := by
    unfold data_format
    rw [haf1, if_pos rfl]
    exact hsf1
  have hdf2 : data_format w2.info = some Format.IEEEFloat := by
    unfold data_format
    rw [haf2, if_neg (by simp)]
  have hch1 : 1 ≤ w1.info.channels := (validate_format_ok _ (openWave_ok b1 w1 h1).2.1).1
  obtain ⟨k, hk⟩ := hdvd
  unfold iterate
  rw [hb1, hb2]
  norm_num
  exact iterateAux_region w1 w2 4 (hdf1.trans hdf2.symm) hch hsz hreg hch1 (by norm_num)
    fuel k 0 (by omega)

/-- C7 witness: the amended theorem applied to two concrete well-formed
files (Extensible-float and plain-float) whose 4-byte data chunk holds
2.0f32. -/
theorem c7_witness : iterate extFloatOkWave 3 = iterate plainFloatOkWave 3 :=
  c7_amended extFloatOkBytes plainFloatOkBytes extFloatOkWave plainFloatOkWave
    (by decide) (by decide) (by decide) (by decide) (by decide) (by decide) (by decide)
    (by decide) (by decide) (by decide) (by decide) 3

/-- C8: every 8-bit unsigned PCM byte `b` decodes to exactly
`(b - 128) / 128.0` (all the `f32` operations involved are exact); in
particular 128 decodes to 0.0, 0 decodes to -1.0, and 255 decodes to
`1 - 1/128`, one quantisation step below 1.0. -/
theorem c8_pcm8_formula :
    (∀ v : ℕ, v < 256 → ∃ d, pcm8Sample v = Sample.val d ∧
        d.toQ = ((v : ℚ) - 128) / 128) ∧
    (∃ d, pcm8Sample 128 = Sample.val d ∧ d.toQ = 0) ∧
    (∃ d, pcm8Sample 0 = Sample.val d ∧ d.toQ = -1) ∧
    (∃ d, pcm8Sample 255 = Sample.val d ∧ d.toQ = 1 - 1 / 128) := by
  have hgen : ∀ v : ℕ, v < 256 → ∃ d, pcm8Sample v = Sample.val d ∧
      d.toQ = ((v : ℚ) - 128) / 128 := by
    intro v hv
    refine ⟨fdivPow2 (fsub32 (i2f32 (v : ℤ)) ⟨128, 0⟩) 7, rfl, ?_⟩
    have hall := pcm8_valEq_all
    rw [List.all_eq_true] at hall
    have hv' := hall v (List.mem_range.mpr hv)
    have hq := valEq_toQ _ _ _ hv'
    rw [hq]
    push_cast
    norm_num
  refine ⟨hgen, ?_, ?_, ?_⟩
  · obtain ⟨d, hd, hq⟩ := hgen 128 (by norm_num)
    exact ⟨d, hd, by rw [hq]; norm_num⟩
  · obtain ⟨d, hd, hq⟩ := hgen 0 (by norm_num)
    exact ⟨d, hd, by rw [hq]; norm_num⟩
  · obtain ⟨d, hd, hq⟩ := hgen 255 (by norm_num)
    exact ⟨d, hd, by rw [hq]; norm_num⟩

/-- C8 witness: the formula at byte value 200. -/
theorem c8_witness :
    ∃ d, pcm8Sample 200 = Sample.val d ∧ d.toQ = ((200 : ℚ) - 128) / 128 :=
  c8_pcm8_formula.1 200 (by decide)

/-- C9: any header state that passes `validate_format` has at least one
channel and at least 8 bits per sample, so the `total_frames` divisor
`channels * bits_per_sample / 8` is at least 1 — also when the
multiplication is performed in wrapping 32-bit arithmetic (the parsed `u16`
fields keep the product below `2^32`) — and the division in `read_chunks`
never divides by zero. -/
theorem c9_divisor_pos (info : WaveInfo) (h : validate_format info = RResult.ok ()) :
    1 ≤ info.channels * info.bits_per_sample / 8 ∧
    (info.channels < 2 ^ 16 → info.bits_per_sample < 2 ^ 16 →
      1 ≤ info.channels * info.bits_per_sample % 2 ^ 32 / 8) := by
  obtain ⟨hch, hbps⟩ := validate_format_ok info h
  have hmul : 8 ≤ info.channels * info.bits_per_sample := by
    calc (8:ℕ) = 1 * 8 := by norm_num
    _ ≤ info.channels * info.bits_per_sample := Nat.mul_le_mul hch hbps
  refine ⟨by omega, ?_⟩
  intro hc hb
  have hprod : info.channels * info.bits_per_sample < 2 ^ 16 * 2 ^ 16 :=
    mul_lt_mul'' hc hb (Nat.zero_le _) (Nat.zero_le _)
  have hlt : info.channels * info.bits_per_sample < 2 ^ 32 := by
    calc info.channels * info.bits_per_sample < 2 ^ 16 * 2 ^ 16 := hprod
    _ = 2 ^ 32 := by norm_num
  rw [Nat.mod_eq_of_lt hlt]
  omega

/-- C9 witness: the mono 16-bit header. -/
theorem c9_witness :
    1 ≤ pcm16Wave.info.channels * pcm16Wave.info.bits_per_sample / 8 ∧
    (pcm16Wave.info.channels < 2 ^ 16 → pcm16Wave.info.bits_per_sample < 2 ^ 16 →
      1 ≤ pcm16Wave.info.channels * pcm16Wave.info.bits_per_sample % 2 ^ 32 / 8) :=
  c9_divisor_pos pcm16Wave.info (by decide)

/-- C10: `validate_format` reads none of `sample_rate`, `byte_rate` or
`block_align` (changing any of them leaves its outcome untouched); a file
that is otherwise well-formed but declares `sample_rate = 0` opens
successfully, and on that handle `duration()` performs an unguarded division
by zero, i.e. panics — so `duration` is not total on successfully opened
handles. -/
theorem c10_sample_rate_unconstrained :
    (∀ info : WaveInfo, ∀ r : ℕ,
      validate_format { info with sample_rate := r } = validate_format info) ∧
    (∀ info : WaveInfo, ∀ r : ℕ,
      validate_format { info with byte_rate := r } = validate_format info) ∧
    (∀ info : WaveInfo, ∀ r : ℕ,
      validate_format { info with block_align := r } = validate_format info) ∧
    openedSampleRate rate0Bytes = some 0 ∧
    openedDuration rate0Bytes = some RResult.panic := by
  refine ⟨?_, ?_, ?_, by decide, by decide⟩ <;> (intro info r; cases info; rfl)

end Wavefile
